import Mathlib

/-!
Verification of the fortune-rs cookie core: a shallow embedding of the
binary strfile codec (`src/cookie/serializer.rs`), the text parser and
weighted sampling hierarchy (`src/cookie.rs`), together with theorems
settling the specification claims.

Machine integers are modelled as `Nat` with explicit `% 2^32` / `% 2^64`
where the Rust code casts; text is modelled as `List Char` (the inputs of
interest are ASCII, where Rust byte length equals char count); `f64`
probabilities are modelled as exact rationals `ℚ`; fallible code returns
`Option`, with `none` standing for a Rust panic or error return.
-/

/-- Bytes of `(n as u32).to_be_bytes()`: truncate to 32 bits, big-endian. -/
def u32_to_be_bytes (n : Nat) : List Nat :=
  [n % 2^32 / 2^24, n % 2^32 / 2^16 % 256, n % 2^32 / 2^8 % 256, n % 2^32 % 256]

/-- Bytes of `(n as u64).to_be_bytes()`: truncate to 64 bits, big-endian. -/
def u64_to_be_bytes (n : Nat) : List Nat :=
  [n % 2^64 / 2^56, n % 2^64 / 2^48 % 256, n % 2^64 / 2^40 % 256, n % 2^64 / 2^32 % 256,
   n % 2^64 / 2^24 % 256, n % 2^64 / 2^16 % 256, n % 2^64 / 2^8 % 256, n % 2^64 % 256]

/-- `u32::from_be_bytes` on a 4-byte slice (extra trailing bytes ignored). -/
def u32_from_be_bytes (bs : List Nat) : Nat :=
  bs.getD 0 0 * 2^24 + bs.getD 1 0 * 2^16 + bs.getD 2 0 * 2^8 + bs.getD 3 0

/-- `u64::from_be_bytes` on an 8-byte slice. -/
def u64_from_be_bytes (bs : List Nat) : Nat :=
  bs.getD 0 0 * 2^56 + bs.getD 1 0 * 2^48 + bs.getD 2 0 * 2^40 + bs.getD 3 0 * 2^32 +
  bs.getD 4 0 * 2^24 + bs.getD 5 0 * 2^16 + bs.getD 6 0 * 2^8 + bs.getD 7 0

/-- `u64::to_le_bytes`. -/
def u64_to_le_bytes (n : Nat) : List Nat :=
  [n % 256, n / 2^8 % 256, n / 2^16 % 256, n / 2^24 % 256,
   n / 2^32 % 256, n / 2^40 % 256, n / 2^48 % 256, n / 2^56 % 256]

/-- `u64::from_le_bytes`. -/
def u64_from_le_bytes (bs : List Nat) : Nat :=
  bs.getD 0 0 + bs.getD 1 0 * 2^8 + bs.getD 2 0 * 2^16 + bs.getD 3 0 * 2^24 +
  bs.getD 4 0 * 2^32 + bs.getD 5 0 * 2^40 + bs.getD 6 0 * 2^48 + bs.getD 7 0 * 2^56

/-- `u32::to_be` on the little-endian hosts the code documents and tests:
a 32-bit byte swap. -/
def u32_swap_bytes (n : Nat) : Nat :=
  n % 2^32 % 256 * 2^24 + n % 2^32 / 2^8 % 256 * 2^16 +
  n % 2^32 / 2^16 % 256 * 2^8 + n % 2^32 / 2^24

/-- `u64_htonl_to_bytes` from serializer.rs:
`(u32::to_be(n as u32) as u64).to_le_bytes()` on a little-endian host. -/
def u64_htonl_to_bytes (n : Nat) : List Nat :=
  u64_to_le_bytes (u32_swap_bytes (n % 2^32))

/-- `u64_ntohl_from_bytes` from serializer.rs:
`(u64::from_le_bytes(bytes) as u32).to_be() as u64` on a little-endian host. -/
def u64_ntohl_from_bytes (bs : List Nat) : Nat :=
  u32_swap_bytes (u64_from_le_bytes bs % 2^32)

/-- A single fortune cookie (`Cookie` in cookie.rs). Text is modelled as a
list of characters; the sources of interest are ASCII, where Rust's byte
length coincides with the character count. -/
structure Cookie where
  location : List Char
  content : List Char
  offset : Nat
deriving DecidableEq

/-- Header and contents of one fortune file (`CookieJar` in cookie.rs).
`f64` probabilities are modelled as exact rationals. -/
structure CookieJar where
  location : List Char
  probability : ℚ
  platform : List Char
  version : Nat
  max_length : Nat
  min_length : Nat
  flags : Nat
  delim : Char
  file_size : Nat
  cookies : List Cookie
deriving DecidableEq

/-- `CookieJar::default()`: delimiter percent, `min_length` the u64::MAX sentinel. -/
def CookieJar.default : CookieJar :=
  { location := [], probability := 0, platform := [], version := 0, max_length := 0,
    min_length := 2^64 - 1, flags := 0, delim := '%', file_size := 0, cookies := [] }

def platform_homebrew : List Char := ['h', 'o', 'm', 'e', 'b', 'r', 'e', 'w']

def platform_linux : List Char := ['l', 'i', 'n', 'u', 'x']

def platform_freebsd : List Char := ['f', 'r', 'e', 'e', 'b', 's', 'd']

/-- The offset-table emission loop shared by the three `to_bytes`
implementations: a cookie's nonzero offset is emitted verbatim, a zero
offset is replaced by the running accumulator, which always advances by
`content.len() + 3` (for the newline, delimiter, newline separator) and
wraps at the accumulator's machine width. -/
def encode_offsets (enc : Nat → List Nat) (wrap : Nat) : List Cookie → Nat → List Nat
  | [], _ => []
  | c :: rest, acc =>
    (if c.offset ≠ 0 then enc c.offset else enc acc) ++
      encode_offsets enc wrap rest ((acc + c.content.length + 3) % wrap)

/-- The offset values (not yet serialized) emitted by `encode_offsets`. -/
def emitted_offsets (wrap : Nat) : List Cookie → Nat → List Nat
  | [], _ => []
  | c :: rest, acc =>
    (if c.offset ≠ 0 then c.offset else acc) ::
      emitted_offsets wrap rest ((acc + c.content.length + 3) % wrap)

/-- The decode loop `for i in (start..stop).step_by(8)` reading one u64
field per iteration; the iteration count is supplied by the caller as
the ceiling of the byte range divided by 8. -/
def decode_table8 (f : List Nat → Nat) (bytes : List Nat) (i : Nat) : Nat → List Nat
  | 0 => []
  | k + 1 => f ((bytes.drop i).take 8) :: decode_table8 f bytes (i + 8) k

/-- Same as `decode_table8` for 4-byte fields. -/
def decode_table4 (f : List Nat → Nat) (bytes : List Nat) (i : Nat) : Nat → List Nat
  | 0 => []
  | k + 1 => f ((bytes.drop i).take 4) :: decode_table4 f bytes (i + 4) k

/-- `SerializerHomebrew::to_bytes`: all header fields in the truncated
8-byte scheme, delimiter byte plus 7 padding bytes, 8-byte offsets,
trailing 8-byte file size. -/
def SerializerHomebrew.to_bytes (data : CookieJar) : List Nat :=
  u64_htonl_to_bytes (if data.version ≠ 0 then data.version else 1) ++
  u64_htonl_to_bytes data.cookies.length ++
  u64_htonl_to_bytes data.max_length ++
  u64_htonl_to_bytes data.min_length ++
  u64_htonl_to_bytes data.flags ++
  [data.delim.toNat % 256] ++
  [0, 0, 0, 0, 0, 0, 0] ++
  encode_offsets u64_htonl_to_bytes (2^64) data.cookies 0 ++
  u64_htonl_to_bytes data.file_size

/-- `SerializerHomebrew::from_bytes`. The declared cookie count at bytes
8..16 is not read back (the count check is commented out in the source).
Slicing is modelled totally via drop/take; the encoder outputs this
decoder is applied to are always long enough. -/
def SerializerHomebrew.from_bytes (bytes : List Nat) : CookieJar :=
  { location := [], probability := 0, platform := platform_homebrew,
    version := u64_ntohl_from_bytes ((bytes.drop 0).take 8),
    max_length := u64_ntohl_from_bytes ((bytes.drop 16).take 8),
    min_length := u64_ntohl_from_bytes ((bytes.drop 24).take 8),
    flags := u64_ntohl_from_bytes ((bytes.drop 32).take 8),
    delim := Char.ofNat (bytes.getD 40 0),
    file_size := u64_ntohl_from_bytes ((bytes.drop (bytes.length - 8)).take 8),
    cookies :=
      (decode_table8 u64_ntohl_from_bytes bytes 48 ((bytes.length - 8 - 48 + 7) / 8)).map
        (fun o => { location := [], content := [], offset := o }) }

/-- `SerializerLinux::to_bytes`: plain 32-bit big-endian header fields,
delimiter byte plus 3 padding bytes, 4-byte offsets with a u32
accumulator, trailing 4-byte file size. -/
def SerializerLinux.to_bytes (data : CookieJar) : List Nat :=
  u32_to_be_bytes (if data.version ≠ 0 then data.version else 2) ++
  u32_to_be_bytes data.cookies.length ++
  u32_to_be_bytes data.max_length ++
  u32_to_be_bytes data.min_length ++
  u32_to_be_bytes data.flags ++
  [data.delim.toNat % 256] ++
  [0, 0, 0] ++
  encode_offsets u32_to_be_bytes (2^32) data.cookies 0 ++
  u32_to_be_bytes data.file_size

/-- `SerializerLinux::from_bytes`: 32-bit fields; asserts that the declared
count equals the number of offset-table entries (`none` models the panic). -/
def SerializerLinux.from_bytes (bytes : List Nat) : Option CookieJar :=
  let offsets := decode_table4 u32_from_be_bytes bytes 24 ((bytes.length - 4 - 24 + 3) / 4)
  let num_cookies := u32_from_be_bytes ((bytes.drop 4).take 4)
  let data : CookieJar :=
    { location := [], probability := 0, platform := platform_linux,
      version := u32_from_be_bytes ((bytes.drop 0).take 4),
      max_length := u32_from_be_bytes ((bytes.drop 8).take 4),
      min_length := u32_from_be_bytes ((bytes.drop 12).take 4),
      flags := u32_from_be_bytes ((bytes.drop 16).take 4),
      delim := Char.ofNat (bytes.getD 20 0),
      file_size := u32_from_be_bytes ((bytes.drop (bytes.length - 4)).take 4),
      cookies := offsets.map (fun o => { location := [], content := [], offset := o }) }
  if num_cookies = offsets.length then some data else none

/-- `SerializerFreeBSD::to_bytes`: 32-bit big-endian header fields,
delimiter byte plus 3 padding bytes, plain 64-bit big-endian offsets
and trailing 64-bit file size. -/
def SerializerFreeBSD.to_bytes (data : CookieJar) : List Nat :=
  u32_to_be_bytes (if data.version ≠ 0 then data.version else 1) ++
  u32_to_be_bytes data.cookies.length ++
  u32_to_be_bytes data.max_length ++
  u32_to_be_bytes data.min_length ++
  u32_to_be_bytes data.flags ++
  [data.delim.toNat % 256] ++
  [0, 0, 0] ++
  encode_offsets u64_to_be_bytes (2^64) data.cookies 0 ++
  u64_to_be_bytes data.file_size

/-- `SerializerFreeBSD::from_bytes`: 32-bit header, 64-bit offsets and file
size; asserts the declared count (`none` models the panic). -/
def SerializerFreeBSD.from_bytes (bytes : List Nat) : Option CookieJar :=
  let offsets := decode_table8 u64_from_be_bytes bytes 24 ((bytes.length - 8 - 24 + 7) / 8)
  let num_cookies := u32_from_be_bytes ((bytes.drop 4).take 4)
  let data : CookieJar :=
    { location := [], probability := 0, platform := platform_freebsd,
      version := u32_from_be_bytes ((bytes.drop 0).take 4),
      max_length := u32_from_be_bytes ((bytes.drop 8).take 4),
      min_length := u32_from_be_bytes ((bytes.drop 12).take 4),
      flags := u32_from_be_bytes ((bytes.drop 16).take 4),
      delim := Char.ofNat (bytes.getD 20 0),
      file_size := u64_from_be_bytes ((bytes.drop (bytes.length - 8)).take 8),
      cookies := offsets.map (fun o => { location := [], content := [], offset := o }) }
  if num_cookies = offsets.length then some data else none

/-- The three platform wire layouts (`SerializerType` in serializer.rs). -/
inductive SerializerType where
  | Homebrew
  | Linux
  | FreeBSD
deriving DecidableEq

/-- `Serializer::to_bytes` dispatch. -/
def Serializer.to_bytes (data : CookieJar) (t : SerializerType) : List Nat :=
  match t with
  | .Homebrew => SerializerHomebrew.to_bytes data
  | .Linux => SerializerLinux.to_bytes data
  | .FreeBSD => SerializerFreeBSD.to_bytes data

/-- `Serializer::from_bytes` dispatch; `none` models a decode-time panic. -/
def Serializer.from_bytes (bytes : List Nat) (t : SerializerType) : Option CookieJar :=
  match t with
  | .Homebrew => some (SerializerHomebrew.from_bytes bytes)
  | .Linux => SerializerLinux.from_bytes bytes
  | .FreeBSD => SerializerFreeBSD.from_bytes bytes

/-- Rust slice indexing `bytes[a..b]`: `none` models the out-of-bounds panic. -/
def slice_opt (bytes : List Nat) (a b : Nat) : Option (List Nat) :=
  if a ≤ b ∧ b ≤ bytes.length then some ((bytes.drop a).take (b - a)) else none

/-- The Linux arm and the final fallback of `Serializer::get_type_by_bytes`,
with the lazy evaluation order of the Rust `&&` chain made explicit:
a later slice is only taken (and can only panic) after the earlier
comparisons succeeded. `cur` is the result of
`Serializer::get_type_by_current_platform()`, injected as a parameter
because it reads the host OS. -/
def get_type_linux_or_default (bytes : List Nat) (cur : SerializerType) :
    Option SerializerType :=
  match slice_opt bytes 0 4 with
  | none => none
  | some s04 =>
    if s04 = [0x00, 0x00, 0x00, 0x02] then
      match slice_opt bytes 4 8 with
      | none => none
      | some s48 =>
        if s48 ≠ [0x00, 0x00, 0x00, 0x00] then
          match slice_opt bytes 28 32 with
          | none => none
          | some s2832 =>
            if s2832 ≠ [0x00, 0x00, 0x00, 0x00] then
              match slice_opt bytes 32 36 with
              | none => none
              | some s3236 =>
                if s3236 ≠ [0x00, 0x00, 0x00, 0x00] then some SerializerType.Linux
                else some cur
            else some cur
        else some cur
    else some cur

/-- `Serializer::get_type_by_bytes`: the ordered heuristic checking the
Homebrew pattern first, then FreeBSD, then Linux, falling back to the
current platform. `none` models an out-of-bounds slice panic. -/
def get_type_by_bytes (bytes : List Nat) (cur : SerializerType) :
    Option SerializerType :=
  match slice_opt bytes 0 8 with
  | none => none
  | some s08 =>
    if s08 = [0x00, 0x00, 0x00, 0x01, 0x00, 0x00, 0x00, 0x00] then
      some SerializerType.Homebrew
    else
      match slice_opt bytes 0 4 with
      | none => none
      | some s04 =>
        if s04 = [0x00, 0x00, 0x00, 0x01] then
          match slice_opt bytes 24 28 with
          | none => none
          | some s2428 =>
            if s2428 = [0x00, 0x00, 0x00, 0x00] then
              match slice_opt bytes 32 36 with
              | none => none
              | some s3236 =>
                if s3236 = [0x00, 0x00, 0x00, 0x00] then some SerializerType.FreeBSD
                else get_type_linux_or_default bytes cur
            else get_type_linux_or_default bytes cur
        else get_type_linux_or_default bytes cur

/-- The documented Homebrew magic: bytes 0..8 equal the truncated encoding
of version 1. -/
def matches_homebrew_magic (bytes : List Nat) : Prop :=
  slice_opt bytes 0 8 = some [0x00, 0x00, 0x00, 0x01, 0x00, 0x00, 0x00, 0x00]

instance (bytes : List Nat) : Decidable (matches_homebrew_magic bytes) := by
  unfold matches_homebrew_magic
  infer_instance

/-- The documented FreeBSD magic: version 1 as plain 32-bit big-endian and
zero high halves of the first two 64-bit offset entries. -/
def matches_freebsd_magic (bytes : List Nat) : Prop :=
  slice_opt bytes 0 4 = some [0x00, 0x00, 0x00, 0x01] ∧
  slice_opt bytes 24 28 = some [0x00, 0x00, 0x00, 0x00] ∧
  slice_opt bytes 32 36 = some [0x00, 0x00, 0x00, 0x00]

instance (bytes : List Nat) : Decidable (matches_freebsd_magic bytes) := by
  unfold matches_freebsd_magic
  infer_instance

/-- The documented Linux magic: version 2, a nonzero count field, and two
nonzero probe words (all examined slices in bounds). -/
def matches_linux_magic (bytes : List Nat) : Prop :=
  slice_opt bytes 0 4 = some [0x00, 0x00, 0x00, 0x02] ∧
  ((slice_opt bytes 4 8).isSome ∧ slice_opt bytes 4 8 ≠ some [0x00, 0x00, 0x00, 0x00]) ∧
  ((slice_opt bytes 28 32).isSome ∧ slice_opt bytes 28 32 ≠ some [0x00, 0x00, 0x00, 0x00]) ∧
  ((slice_opt bytes 32 36).isSome ∧ slice_opt bytes 32 36 ≠ some [0x00, 0x00, 0x00, 0x00])

instance (bytes : List Nat) : Decidable (matches_linux_magic bytes) := by
  unfold matches_linux_magic
  infer_instance

/-- Rust `str::replace`: replace non-overlapping matches left to right.
The fuel argument (instantiated with the string length) makes the
recursion structural; one character or one whole match is consumed per
step, so `s.length` fuel always suffices. -/
def replace_go (pat rep : List Char) : Nat → List Char → List Char
  | _, [] => []
  | 0, s => s
  | fuel + 1, a :: rest =>
    if !pat.isEmpty && pat.isPrefixOf (a :: rest) then
      rep ++ replace_go pat rep fuel ((a :: rest).drop pat.length)
    else a :: replace_go pat rep fuel rest

/-- `s.replace(pat, rep)`. -/
def list_replace (pat rep s : List Char) : List Char :=
  replace_go pat rep s.length s

/-- Rust `str::split`: parts between non-overlapping matches scanned left
to right, keeping empty parts. Fueled like `replace_go`. -/
def split_go (sep : List Char) : Nat → List Char → List Char → List (List Char)
  | _, acc, [] => [acc.reverse]
  | 0, acc, s => [acc.reverse ++ s]
  | fuel + 1, acc, a :: rest =>
    if !sep.isEmpty && sep.isPrefixOf (a :: rest) then
      acc.reverse :: split_go sep fuel [] ((a :: rest).drop sep.length)
    else split_go sep fuel (a :: acc) rest

/-- `s.split(sep)` for a nonempty separator. -/
def list_split (sep s : List Char) : List (List Char) :=
  split_go sep s.length [] s

/-- Rust `str::trim_end_matches`: repeatedly remove a trailing occurrence
of the pattern. Fueled; each removal strips at least one character. -/
def trim_end_go (pat : List Char) : Nat → List Char → List Char
  | 0, s => s
  | fuel + 1, s =>
    if !pat.isEmpty && pat.isSuffixOf s then
      trim_end_go pat fuel (s.take (s.length - pat.length))
    else s

/-- `s.trim_end_matches(pat)`. -/
def trim_end_matches (pat s : List Char) : List Char :=
  trim_end_go pat s.length s

/-- The ASCII fragment of Rust `char::is_whitespace`, which is all that the
delimiters and record texts of interest contain. -/
def is_rust_whitespace (c : Char) : Bool :=
  c = ' ' || c = '\t' || c = '\n' || c = '\x0b' || c = '\x0c' || c = '\r'

/-- `CookieJar::from_text`: normalize line endings, split on the
newline-delimiter-newline separator, strip a trailing
newline-delimiter from every part, drop whitespace-only records, and
fill in the length and size metadata. The platform string normally read
from the host OS is injected as `cur_platform`. The Rust function always
returns `Ok`, so no `Option` is needed. -/
def CookieJar.from_text (cur_platform : List Char) (content : List Char)
    (location : List Char) (delim : Char) : CookieJar :=
  let content := list_replace ['\r', '\n'] ['\n'] content
  let content := list_replace ['\r'] ['\n'] content
  let loc := trim_end_matches ['.', 'd', 'a', 't'] location
  let splitter := ['\n', delim, '\n']
  let parts := (list_split splitter content).map (fun s => trim_end_matches ['\n', delim] s)
  let cookies :=
    (parts.filter (fun part => !(part.all is_rust_whitespace))).map
      (fun part => { location := loc, content := part, offset := 0 : Cookie })
  let lengths := cookies.map (fun c => c.content.length + 1)
  { location := loc, probability := 0, platform := cur_platform, version := 0,
    max_length := lengths.max?.getD 0, min_length := lengths.min?.getD 0,
    flags := 0, delim := delim, file_size := content.length, cookies := cookies }

/-- `CookieSieve`: an ordered list of text predicates. -/
structure CookieSieve where
  filters : List (List Char → Bool)

/-- `CookieSieve::filter`: a text is admitted iff every predicate accepts it. -/
def CookieSieve.filter (sieve : CookieSieve) (cookie : List Char) : Bool :=
  sieve.filters.all (fun f => f cookie)

/-- `CookieJar::filter`: retain exactly the admitted cookies; the Rust
method mutates in place and this model returns the updated jar. -/
def CookieJar.filter (jar : CookieJar) (sieve : CookieSieve) : CookieJar :=
  { jar with cookies := jar.cookies.filter (fun c => sieve.filter c.content) }

/-- `CookieShelf`: one location expanding to several jars. -/
structure CookieShelf where
  location : List Char
  probability : ℚ
  jars : List CookieJar
deriving DecidableEq

def CookieShelf.default : CookieShelf :=
  { location := [], probability := 0, jars := [] }

def CookieShelf.num_of_cookies (s : CookieShelf) : Nat :=
  (s.jars.map (fun j => j.cookies.length)).sum

def CookieShelf.num_of_jars (s : CookieShelf) : Nat :=
  s.jars.length

/-- `CookieShelf::calculate_prob`: a shelf with probability zero returns
unchanged; otherwise the shelf weight is divided equally among jars or
proportionally to their cookie counts. -/
def CookieShelf.calculate_prob (s : CookieShelf) (equal_size : Bool) : CookieShelf :=
  if s.probability = 0 then s
  else if equal_size then
    let prob := s.probability / (s.num_of_jars : ℚ)
    { s with jars := s.jars.map (fun j => { j with probability := prob }) }
  else
    let total_num_cookies := s.num_of_cookies
    { s with jars := s.jars.map (fun j =>
        { j with probability := (j.cookies.length : ℚ) / (total_num_cookies : ℚ) * s.probability }) }

/-- `CookieCabinet`: the root collection of shelves. -/
structure CookieCabinet where
  shelves : List CookieShelf
deriving DecidableEq

def CookieCabinet.num_of_cookies (cab : CookieCabinet) : Nat :=
  (cab.shelves.map (fun s => s.num_of_cookies)).sum

def CookieCabinet.num_of_jars (cab : CookieCabinet) : Nat :=
  (cab.shelves.map (fun s => s.num_of_jars)).sum

def CookieCabinet.num_of_nonempty_jars (cab : CookieCabinet) : Nat :=
  (((cab.shelves.map (fun s => s.jars)).flatten).filter (fun j => !j.cookies.isEmpty)).length

/-- `CookieCabinet::calculate_prob`: when no shelf weights were assigned,
distribute 100 over shelves (per jar or per cookie), then let each shelf
distribute its weight over its jars. -/
def CookieCabinet.calculate_prob (cab : CookieCabinet) (equal_size : Bool) : CookieCabinet :=
  let total_prob : ℚ := (cab.shelves.map (fun s => s.probability)).sum
  let shelves1 :=
    if total_prob = 0 then
      if equal_size then
        let prob_per_jar := (100 : ℚ) / (cab.num_of_jars : ℚ)
        cab.shelves.map (fun s => { s with probability := prob_per_jar * (s.num_of_jars : ℚ) })
      else
        let prob_per_cookie := (100 : ℚ) / (cab.num_of_cookies : ℚ)
        cab.shelves.map (fun s => { s with probability := (s.num_of_cookies : ℚ) * prob_per_cookie })
    else cab.shelves
  { shelves := shelves1.map (fun s => s.calculate_prob equal_size) }

/-- One command-line item for `CookieCabinet::from_string_list`, pre-lexed:
an item ending in the percent sign with its numeric weight parsed by the
standard library (`prob`), or a location item (`loc`). -/
inductive WeightToken where
  | prob (p : ℚ)
  | loc (s : List Char)

/-- The item loop of `CookieCabinet::from_string_list`: a weight token is
carried to the next location; a location is pushed with the carried
weight when that weight is positive (resetting it), and with weight zero
otherwise (leaving the carried value untouched, exactly as the source
does). -/
def build_shelves : List WeightToken → ℚ → List CookieShelf
  | [], _ => []
  | .prob p :: rest, _ => build_shelves rest p
  | .loc s :: rest, prob =>
    if prob > 0 then
      { location := s, probability := prob, jars := [] } :: build_shelves rest 0
    else
      { location := s, probability := 0, jars := [] } :: build_shelves rest prob

/-- The shelf list `from_string_list` builds before its weight check: for an
empty item list a single embedded shelf with weight 100 (its
locale-dependent location injected as `embed_location`), otherwise the
`build_shelves` loop. -/
def CookieCabinet.shelves_of (items : List WeightToken) (embed_location : List Char) :
    List CookieShelf :=
  if items.isEmpty then [{ location := embed_location, probability := 100, jars := [] }]
  else build_shelves items 0

/-- `CookieCabinet::from_string_list`: reject (with `none` modelling the
`bail!`) when the total shelf weight is positive yet differs from 100 by
more than the 1e-4 tolerance. -/
def CookieCabinet.from_string_list (items : List WeightToken) (embed_location : List Char) :
    Option CookieCabinet :=
  let shelves := CookieCabinet.shelves_of items embed_location
  let total_prob : ℚ := (shelves.map (fun s => s.probability)).sum
  if |total_prob - 100| > 1 / 10000 ∧ total_prob > 0 then none
  else some { shelves := shelves }

/-- The support of `WeightedIndex::new` plus `sample`: `none` models the
`unwrap` panic when the weight vector is empty, contains a negative
weight, or sums to zero; otherwise an index with positive weight is
returned, the raw randomness `n` selecting among the eligible indices.
This is support-faithful (it can return exactly the indices the real
sampler can), which is all the sampling claims require. -/
def weighted_index_sample (ws : List ℚ) (n : Nat) : Option Nat :=
  if ws ≠ [] ∧ (∀ w ∈ ws, 0 ≤ w) ∧ 0 < ws.sum then
    let pos := (List.range ws.length).filter (fun i => decide (0 < ws.getD i 0))
    some (pos.getD (n % pos.length) 0)
  else none

/-- `CookieJar::choose` via `SliceRandom::choose`: `None` iff the jar is
empty, otherwise a uniformly drawn cookie. -/
def CookieJar.choose (jar : CookieJar) (n : Nat) : Option Cookie :=
  if jar.cookies.isEmpty then none
  else jar.cookies[n % jar.cookies.length]?

/-- `CookieShelf::choose`: draw a jar by weight (outer `none` is the
`unwrap` panic), then draw a cookie from it. -/
def CookieShelf.choose (s : CookieShelf) (r1 r2 : Nat) : Option (Option Cookie) :=
  match weighted_index_sample (s.jars.map (fun j => j.probability)) r1 with
  | none => none
  | some index => some ((s.jars.getD index CookieJar.default).choose r2)

/-- `CookieCabinet::choose`: draw a shelf by weight, then delegate. -/
def CookieCabinet.choose (cab : CookieCabinet) (r1 r2 r3 : Nat) : Option (Option Cookie) :=
  match weighted_index_sample (cab.shelves.map (fun s => s.probability)) r1 with
  | none => none
  | some index => (cab.shelves.getD index CookieShelf.default).choose r2 r3

/-- A cookie with one-character content, used by concrete test cabinets. -/
def sample_cookie : Cookie := { location := [], content := ['x'], offset := 0 }

/-- A jar with the given probability and `k` one-character cookies. -/
def sample_jar (p : ℚ) (k : Nat) : CookieJar :=
  { CookieJar.default with probability := p, cookies := List.replicate k sample_cookie }

/-- A jar whose two cookies both carry offset zero: the encoders replace the
second zero offset with the computed accumulator. -/
def c1_zero_offset_jar : CookieJar :=
  { location := [], probability := 0, platform := platform_homebrew, version := 1,
    max_length := 3, min_length := 3, flags := 0, delim := '%', file_size := 10,
    cookies := [ { location := [], content := ['a', 'b'], offset := 0 },
                 { location := [], content := ['c', 'd'], offset := 0 } ] }

/-- The jar of the serializer unit tests: two cookies at offsets 35 and 120. -/
def c1_test_jar : CookieJar :=
  { location := [], probability := 0, platform := platform_homebrew, version := 1,
    max_length := 16, min_length := 5, flags := 1, delim := '%', file_size := 160,
    cookies := [ { location := [], content := [], offset := 35 },
                 { location := [], content := [], offset := 120 } ] }

/-- The Homebrew test vector from the serializer unit tests. -/
def c3_vec_homebrew : List Nat :=
  [0, 0, 0, 1, 0, 0, 0, 0, 0, 0, 0, 2, 0, 0, 0, 0, 0, 0, 0, 0x10, 0, 0, 0, 0,
   0, 0, 0, 5, 0, 0, 0, 0, 0, 0, 0, 1, 0, 0, 0, 0, 0x25, 0, 0, 0, 0, 0, 0, 0,
   0, 0, 0, 0x23, 0, 0, 0, 0, 0, 0, 0, 0x78, 0, 0, 0, 0, 0, 0, 0, 0xA0, 0, 0, 0, 0]

/-- The Linux test vector from the serializer unit tests. -/
def c3_vec_linux : List Nat :=
  [0, 0, 0, 2, 0, 0, 0, 2, 0, 0, 0, 0x11, 0, 0, 0, 6, 0, 0, 0, 2, 0x25, 0, 0, 0,
   0, 0, 0, 0x30, 0, 0, 0, 0x80, 0, 0, 0, 0xB0]

/-- The FreeBSD test vector from the serializer unit tests. -/
def c3_vec_freebsd : List Nat :=
  [0, 0, 0, 1, 0, 0, 0, 2, 0, 0, 0, 0x13, 0, 0, 0, 9, 0, 0, 0, 4, 0x25, 0, 0, 0,
   0, 0, 0, 0, 0, 0, 0, 8, 0, 0, 0, 0, 0, 0, 0, 0x38, 0, 0, 0, 0, 0, 0, 0, 0xC0]

/-- A 30-byte buffer that matches none of the three magic patterns but makes
the detector slice `bytes[32..36]` out of bounds: version word 1 (so the
Homebrew comparison fails only on byte 4), zero bytes at 24..28. -/
def c3_vec_short : List Nat := [0, 0, 0, 1, 1, 0, 0, 0] ++ List.replicate 22 0

/-- The text-parsing test input: apple, separator, banana, trailing separator. -/
def c4_input : List Char :=
  ['a', 'p', 'p', 'l', 'e', '\n', '%', '\n', 'b', 'a', 'n', 'a', 'n', 'a', '\n', '%']

/-- A cabinet satisfying the non-degeneracy conditions of the normalization
claim (every shelf has a jar and a cookie, weights sum to 100) in which a
zero-weight shelf keeps a stale jar probability. -/
def c6_stale_cabinet : CookieCabinet :=
  { shelves := [ { location := ['a'], probability := 0, jars := [sample_jar 5 1] },
                 { location := ['b'], probability := 100, jars := [sample_jar 0 1] } ] }

/-- An all-zero-weight cabinet with two shelves holding two and three
cookies, used to witness the amended normalization claim. -/
def c6_witness_cabinet : CookieCabinet :=
  { shelves := [ { location := ['a'], probability := 0, jars := [sample_jar 0 2, sample_jar 0 3] },
                 { location := ['b'], probability := 0, jars := [sample_jar 0 1] } ] }

/-- A zero-weight shelf whose jar keeps its stale probability 7. -/
def c7_stale_shelf : CookieShelf :=
  { location := ['a'], probability := 0, jars := [sample_jar 7 1] }

/-- A shelf with weight 50 over jars holding two and three cookies. -/
def c7_witness_shelf : CookieShelf :=
  { location := ['a'], probability := 50, jars := [sample_jar 0 2, sample_jar 0 3] }

/-- The token list of the partial-weight test: 15 percent, 85 percent and 10
percent over three locations. -/
def c8_tokens : List WeightToken :=
  [.prob 15, .loc ['a'], .prob 85, .loc ['b'], .prob 10, .loc ['c']]

/-- The empty cabinet. -/
def c9_empty_cabinet : CookieCabinet := { shelves := [] }

/-- A one-shelf, one-jar cabinet with consistent weights and two cookies. -/
def c9_witness_cabinet : CookieCabinet :=
  { shelves := [ { location := ['a'], probability := 100, jars := [sample_jar 100 2] } ] }

theorem u32_swap_bytes_lt (n : Nat) : u32_swap_bytes n < 2^32 := by
  unfold u32_swap_bytes
  omega

theorem u64_from_le_bytes_to_le (x : Nat) (h : x < 2^64) :
    u64_from_le_bytes (u64_to_le_bytes x) = x := by
  simp only [u64_from_le_bytes, u64_to_le_bytes, List.getD, List.get?_eq_getElem?,
    List.getElem?_cons_zero, List.getElem?_cons_succ, Option.getD_some]
  omega

theorem u32_swap_bytes_poly (b0 b1 b2 b3 : Nat)
    (h0 : b0 < 256) (h1 : b1 < 256) (h2 : b2 < 256) (h3 : b3 < 256) :
    u32_swap_bytes (b0 * 2^24 + b1 * 2^16 + b2 * 2^8 + b3) =
      b3 * 2^24 + b2 * 2^16 + b1 * 2^8 + b0 := by
  unfold u32_swap_bytes
  omega

theorem byte_decomp (m : Nat) (hm : m < 2^32) :
    ∃ b0 b1 b2 b3, b0 < 256 ∧ b1 < 256 ∧ b2 < 256 ∧ b3 < 256 ∧
      m = b0 * 2^24 + b1 * 2^16 + b2 * 2^8 + b3 :=
  ⟨m / 2^24, m / 2^16 % 256, m / 2^8 % 256, m % 256,
    by omega, by omega, by omega, by omega, by omega⟩

theorem u32_swap_bytes_swap (n : Nat) :
    u32_swap_bytes (u32_swap_bytes n) = n % 2^32 := by
  have key : ∀ m, m < 2^32 → u32_swap_bytes (u32_swap_bytes m) = m := by
    intro m hm
    obtain ⟨b0, b1, b2, b3, h0, h1, h2, h3, rfl⟩ := byte_decomp m hm
    rw [u32_swap_bytes_poly b0 b1 b2 b3 h0 h1 h2 h3,
      u32_swap_bytes_poly b3 b2 b1 b0 h3 h2 h1 h0]
  have hmod : u32_swap_bytes n = u32_swap_bytes (n % 2^32) := by
    unfold u32_swap_bytes
    omega
  rw [hmod, key (n % 2^32) (Nat.mod_lt _ (by norm_num))]

theorem u64_to_le_bytes_poly (b0 b1 b2 b3 : Nat)
    (h0 : b0 < 256) (h1 : b1 < 256) (h2 : b2 < 256) (h3 : b3 < 256) :
    u64_to_le_bytes (b3 * 2^24 + b2 * 2^16 + b1 * 2^8 + b0) =
      [b0, b1, b2, b3, 0, 0, 0, 0] := by
  simp only [u64_to_le_bytes, List.cons.injEq, and_true]
  refine ⟨by omega, by omega, by omega, by omega, by omega, by omega, by omega, by omega⟩

theorem u32_to_be_bytes_poly (b0 b1 b2 b3 : Nat)
    (h0 : b0 < 256) (h1 : b1 < 256) (h2 : b2 < 256) (h3 : b3 < 256) :
    u32_to_be_bytes (b0 * 2^24 + b1 * 2^16 + b2 * 2^8 + b3) = [b0, b1, b2, b3] := by
  simp only [u32_to_be_bytes, List.cons.injEq, and_true]
  refine ⟨by omega, by omega, by omega, by omega⟩

theorem u32_to_be_bytes_mod (n : Nat) :
    u32_to_be_bytes (n % 2^32) = u32_to_be_bytes n := by
  simp only [u32_to_be_bytes, List.cons.injEq, and_true]
  refine ⟨by omega, by omega, by omega, by omega⟩

theorem u64_htonl_to_bytes_eq (n : Nat) :
    u64_htonl_to_bytes n = u32_to_be_bytes n ++ [0, 0, 0, 0] := by
  rw [← u32_to_be_bytes_mod]
  obtain ⟨b0, b1, b2, b3, h0, h1, h2, h3, hd⟩ :=
    byte_decomp (n % 2^32) (Nat.mod_lt _ (by norm_num))
  unfold u64_htonl_to_bytes
  rw [hd, u32_swap_bytes_poly b0 b1 b2 b3 h0 h1 h2 h3,
    u64_to_le_bytes_poly b0 b1 b2 b3 h0 h1 h2 h3,
    u32_to_be_bytes_poly b0 b1 b2 b3 h0 h1 h2 h3]
  rfl

theorem u64_ntohl_from_bytes_htonl (n : Nat) :
    u64_ntohl_from_bytes (u64_htonl_to_bytes n) = n % 2^32 := by
  unfold u64_ntohl_from_bytes u64_htonl_to_bytes
  rw [u64_from_le_bytes_to_le _ (lt_trans (u32_swap_bytes_lt _) (by norm_num)),
    Nat.mod_eq_of_lt (u32_swap_bytes_lt _), u32_swap_bytes_swap]
  omega

theorem u64_htonl_to_bytes_length (n : Nat) : (u64_htonl_to_bytes n).length = 8 := rfl

theorem u32_to_be_bytes_length (n : Nat) : (u32_to_be_bytes n).length = 4 := rfl

theorem u64_to_be_bytes_length (n : Nat) : (u64_to_be_bytes n).length = 8 := rfl

theorem u32_from_be_bytes_to_be (x : Nat) :
    u32_from_be_bytes (u32_to_be_bytes x) = x % 2^32 := by
  simp only [u32_from_be_bytes, u32_to_be_bytes, List.getD_cons_zero, List.getD_cons_succ]
  omega

theorem u64_from_be_bytes_to_be (x : Nat) :
    u64_from_be_bytes (u64_to_be_bytes x) = x % 2^64 := by
  simp only [u64_from_be_bytes, u64_to_be_bytes, List.getD_cons_zero, List.getD_cons_succ]
  omega

theorem u32_from_be_bytes_htonl (x : Nat) :
    u32_from_be_bytes (u64_htonl_to_bytes x) = x % 2^32 := by
  rw [u64_htonl_to_bytes_eq]
  simp only [u32_from_be_bytes, u32_to_be_bytes, List.cons_append, List.nil_append,
    List.getD_cons_zero, List.getD_cons_succ]
  omega

theorem emitted_offsets_length (wrap : Nat) :
    ∀ (cs : List Cookie) (acc : Nat), (emitted_offsets wrap cs acc).length = cs.length := by
  intro cs
  induction cs with
  | nil => intro acc; rfl
  | cons c rest ih => intro acc; simp [emitted_offsets, ih]

theorem encode_offsets_eq_flatten (enc : Nat → List Nat) (wrap : Nat) :
    ∀ (cs : List Cookie) (acc : Nat),
      encode_offsets enc wrap cs acc = ((emitted_offsets wrap cs acc).map enc).flatten := by
  intro cs
  induction cs with
  | nil => intro acc; rfl
  | cons c rest ih => intro acc; simp [encode_offsets, emitted_offsets, ih, apply_ite enc]

theorem emitted_offsets_of_nonzero (wrap : Nat) :
    ∀ (cs : List Cookie) (acc : Nat), (∀ c ∈ cs, c.offset ≠ 0) →
      emitted_offsets wrap cs acc = cs.map Cookie.offset := by
  intro cs
  induction cs with
  | nil => intro acc _; rfl
  | cons c rest ih =>
    intro acc h
    have hc : c.offset ≠ 0 := h c (List.mem_cons_self c rest)
    simp [emitted_offsets, hc, ih _ (fun x hx => h x (List.mem_cons_of_mem c hx))]

theorem encode_offsets_length (enc : Nat → List Nat) (k wrap : Nat)
    (hk : ∀ x, (enc x).length = k) :
    ∀ (cs : List Cookie) (acc : Nat), (encode_offsets enc wrap cs acc).length = k * cs.length := by
  intro cs
  induction cs with
  | nil => intro acc; simp [encode_offsets]
  | cons c rest ih =>
    intro acc
    rw [encode_offsets, List.length_append]
    have hhd : (if c.offset ≠ 0 then enc c.offset else enc acc).length = k := by
      split
      · exact hk _
      · exact hk _
    rw [hhd, ih]
    simp [List.length_cons]
    ring

theorem decode_table8_spec (f : List Nat → Nat) :
    ∀ (chunks : List (List Nat)) (pre post : List Nat) (i : Nat),
      (∀ ch ∈ chunks, ch.length = 8) → i = pre.length →
      decode_table8 f (pre ++ (chunks.flatten ++ post)) i chunks.length = chunks.map f := by
  intro chunks
  induction chunks with
  | nil => intro pre post i _ _; rfl
  | cons ch rest ih =>
    intro pre post i h hi
    have hch : ch.length = 8 := h ch (List.mem_cons_self ch rest)
    have hrest : ∀ c ∈ rest, c.length = 8 := fun c hc => h c (List.mem_cons_of_mem ch hc)
    have hflat : (ch :: rest).flatten ++ post = ch ++ (rest.flatten ++ post) := by
      simp [List.append_assoc]
    rw [show (ch :: rest).length = rest.length + 1 from rfl]
    rw [decode_table8, hflat, hi, List.drop_left, List.take_left' hch]
    have hre : pre ++ (ch ++ (rest.flatten ++ post)) = (pre ++ ch) ++ (rest.flatten ++ post) := by
      simp [List.append_assoc]
    rw [hre, ih (pre ++ ch) post _ hrest (by simp [hch])]
    rfl

theorem decode_table4_spec (f : List Nat → Nat) :
    ∀ (chunks : List (List Nat)) (pre post : List Nat) (i : Nat),
      (∀ ch ∈ chunks, ch.length = 4) → i = pre.length →
      decode_table4 f (pre ++ (chunks.flatten ++ post)) i chunks.length = chunks.map f := by
  intro chunks
  induction chunks with
  | nil => intro pre post i _ _; rfl
  | cons ch rest ih =>
    intro pre post i h hi
    have hch : ch.length = 4 := h ch (List.mem_cons_self ch rest)
    have hrest : ∀ c ∈ rest, c.length = 4 := fun c hc => h c (List.mem_cons_of_mem ch hc)
    have hflat : (ch :: rest).flatten ++ post = ch ++ (rest.flatten ++ post) := by
      simp [List.append_assoc]
    rw [show (ch :: rest).length = rest.length + 1 from rfl]
    rw [decode_table4, hflat, hi, List.drop_left, List.take_left' hch]
    have hre : pre ++ (ch ++ (rest.flatten ++ post)) = (pre ++ ch) ++ (rest.flatten ++ post) := by
      simp [List.append_assoc]
    rw [hre, ih (pre ++ ch) post _ hrest (by simp [hch])]
    rfl

theorem homebrew_to_bytes_length (jar : CookieJar) :
    (SerializerHomebrew.to_bytes jar).length = 56 + 8 * jar.cookies.length := by
  unfold SerializerHomebrew.to_bytes
  simp only [List.length_append, u64_htonl_to_bytes_length, List.length_cons, List.length_nil,
    encode_offsets_length u64_htonl_to_bytes 8 (2^64) (fun _ => rfl)]
  omega

theorem homebrew_extract16 (jar : CookieJar) :
    ((SerializerHomebrew.to_bytes jar).drop 16).take 8 =
      u64_htonl_to_bytes jar.max_length := rfl

theorem homebrew_extract24 (jar : CookieJar) :
    ((SerializerHomebrew.to_bytes jar).drop 24).take 8 =
      u64_htonl_to_bytes jar.min_length := rfl

theorem homebrew_extract32 (jar : CookieJar) :
    ((SerializerHomebrew.to_bytes jar).drop 32).take 8 =
      u64_htonl_to_bytes jar.flags := rfl

theorem homebrew_extract40 (jar : CookieJar) :
    (SerializerHomebrew.to_bytes jar).getD 40 0 = jar.delim.toNat % 256 := rfl

theorem homebrew_extract48 (jar : CookieJar) :
    (SerializerHomebrew.to_bytes jar).drop 48 =
      encode_offsets u64_htonl_to_bytes (2^64) jar.cookies 0 ++
        u64_htonl_to_bytes jar.file_size := rfl

set_option maxHeartbeats 1000000 in
theorem homebrew_roundtrip (jar : CookieJar)
    (hmax : jar.max_length < 2^32) (hmin : jar.min_length < 2^32)
    (hflags : jar.flags < 2^32) (hfs : jar.file_size < 2^32)
    (hdelim : jar.delim.toNat < 256)
    (hoff : ∀ c ∈ jar.cookies, c.offset ≠ 0 ∧ c.offset < 2^32) :
    (SerializerHomebrew.from_bytes (SerializerHomebrew.to_bytes jar)).cookies.map Cookie.offset
        = jar.cookies.map Cookie.offset ∧
    (SerializerHomebrew.from_bytes (SerializerHomebrew.to_bytes jar)).cookies.length
        = jar.cookies.length ∧
    (SerializerHomebrew.from_bytes (SerializerHomebrew.to_bytes jar)).flags = jar.flags ∧
    (SerializerHomebrew.from_bytes (SerializerHomebrew.to_bytes jar)).delim = jar.delim ∧
    (SerializerHomebrew.from_bytes (SerializerHomebrew.to_bytes jar)).max_length
        = jar.max_length ∧
    (SerializerHomebrew.from_bytes (SerializerHomebrew.to_bytes jar)).min_length
        = jar.min_length ∧
    (SerializerHomebrew.from_bytes (SerializerHomebrew.to_bytes jar)).file_size
        = jar.file_size := by
  have hBlen := homebrew_to_bytes_length jar
  have hmax' :
      (SerializerHomebrew.from_bytes (SerializerHomebrew.to_bytes jar)).max_length
        = jar.max_length := by
    show u64_ntohl_from_bytes (((SerializerHomebrew.to_bytes jar).drop 16).take 8)
      = jar.max_length
    rw [homebrew_extract16, u64_ntohl_from_bytes_htonl]
    exact Nat.mod_eq_of_lt hmax
  have hmin' :
      (SerializerHomebrew.from_bytes (SerializerHomebrew.to_bytes jar)).min_length
        = jar.min_length := by
    show u64_ntohl_from_bytes (((SerializerHomebrew.to_bytes jar).drop 24).take 8)
      = jar.min_length
    rw [homebrew_extract24, u64_ntohl_from_bytes_htonl]
    exact Nat.mod_eq_of_lt hmin
  have hflags' :
      (SerializerHomebrew.from_bytes (SerializerHomebrew.to_bytes jar)).flags = jar.flags := by
    show u64_ntohl_from_bytes (((SerializerHomebrew.to_bytes jar).drop 32).take 8) = jar.flags
    rw [homebrew_extract32, u64_ntohl_from_bytes_htonl]
    exact Nat.mod_eq_of_lt hflags
  have hdelim' :
      (SerializerHomebrew.from_bytes (SerializerHomebrew.to_bytes jar)).delim = jar.delim := by
    show Char.ofNat ((SerializerHomebrew.to_bytes jar).getD 40 0) = jar.delim
    rw [homebrew_extract40, Nat.mod_eq_of_lt hdelim, Char.ofNat_toNat]
  have hfs' :
      (SerializerHomebrew.from_bytes (SerializerHomebrew.to_bytes jar)).file_size
        = jar.file_size := by
    show u64_ntohl_from_bytes
      (((SerializerHomebrew.to_bytes jar).drop
          ((SerializerHomebrew.to_bytes jar).length - 8)).take 8) = jar.file_size
    have h1 : (SerializerHomebrew.to_bytes jar).length - 8 =
        48 + 8 * jar.cookies.length := by omega
    have h2 : 8 * jar.cookies.length =
        (encode_offsets u64_htonl_to_bytes (2^64) jar.cookies 0).length + 0 := by
      rw [encode_offsets_length u64_htonl_to_bytes 8 (2^64) (fun _ => rfl)]
      omega
    rw [h1, ← List.drop_drop, homebrew_extract48, h2, List.drop_append,
      show ((u64_htonl_to_bytes jar.file_size).drop 0).take 8 =
        u64_htonl_to_bytes jar.file_size from rfl,
      u64_ntohl_from_bytes_htonl]
    exact Nat.mod_eq_of_lt hfs
  have hcook :
      (SerializerHomebrew.from_bytes (SerializerHomebrew.to_bytes jar)).cookies.map Cookie.offset
        = jar.cookies.map Cookie.offset := by
    show ((decode_table8 u64_ntohl_from_bytes (SerializerHomebrew.to_bytes jar) 48
        (((SerializerHomebrew.to_bytes jar).length - 8 - 48 + 7) / 8)).map
          (fun o => ({ location := [], content := [], offset := o } : Cookie))).map Cookie.offset
      = jar.cookies.map Cookie.offset
    have hcount : ((SerializerHomebrew.to_bytes jar).length - 8 - 48 + 7) / 8 =
        ((jar.cookies.map Cookie.offset).map u64_htonl_to_bytes).length := by
      simp only [List.length_map]
      omega
    have hchunks_len :
        ∀ ch ∈ (jar.cookies.map Cookie.offset).map u64_htonl_to_bytes, ch.length = 8 := by
      intro ch hch
      obtain ⟨x, _, rfl⟩ := List.mem_map.mp hch
      rfl
    have hsplit : SerializerHomebrew.to_bytes jar =
        (SerializerHomebrew.to_bytes jar).take 48 ++
          (((jar.cookies.map Cookie.offset).map u64_htonl_to_bytes).flatten ++
            u64_htonl_to_bytes jar.file_size) := by
      conv_lhs => rw [← List.take_append_drop 48 (SerializerHomebrew.to_bytes jar)]
      rw [homebrew_extract48, encode_offsets_eq_flatten,
        emitted_offsets_of_nonzero _ _ _ (fun c hc => (hoff c hc).1)]
    have hpre : (48 : Nat) = ((SerializerHomebrew.to_bytes jar).take 48).length := by
      rw [List.length_take]
      omega
    rw [hcount,
      show decode_table8 u64_ntohl_from_bytes (SerializerHomebrew.to_bytes jar) 48
          ((jar.cookies.map Cookie.offset).map u64_htonl_to_bytes).length =
        decode_table8 u64_ntohl_from_bytes
          ((SerializerHomebrew.to_bytes jar).take 48 ++
            (((jar.cookies.map Cookie.offset).map u64_htonl_to_bytes).flatten ++
              u64_htonl_to_bytes jar.file_size)) 48
          ((jar.cookies.map Cookie.offset).map u64_htonl_to_bytes).length from by rw [← hsplit],
      decode_table8_spec u64_ntohl_from_bytes _ _ _ _ hchunks_len hpre]
    simp only [List.map_map]
    refine List.map_congr_left ?_
    intro c hc
    simp only [Function.comp_apply, u64_ntohl_from_bytes_htonl]
    exact Nat.mod_eq_of_lt (hoff c hc).2
  have hcnt :
      (SerializerHomebrew.from_bytes (SerializerHomebrew.to_bytes jar)).cookies.length
        = jar.cookies.length := by
    have := congrArg List.length hcook
    simpa using this
  exact ⟨hcook, hcnt, hflags', hdelim', hmax', hmin', hfs'⟩

theorem linux_to_bytes_length (jar : CookieJar) :
    (SerializerLinux.to_bytes jar).length = 28 + 4 * jar.cookies.length := by
  unfold SerializerLinux.to_bytes
  simp only [List.length_append, u32_to_be_bytes_length, List.length_cons, List.length_nil,
    encode_offsets_length u32_to_be_bytes 4 (2^32) (fun _ => rfl)]
  omega

theorem linux_extract4 (jar : CookieJar) :
    ((SerializerLinux.to_bytes jar).drop 4).take 4 =
      u32_to_be_bytes jar.cookies.length := rfl

theorem linux_extract8 (jar : CookieJar) :
    ((SerializerLinux.to_bytes jar).drop 8).take 4 =
      u32_to_be_bytes jar.max_length := rfl

theorem linux_extract12 (jar : CookieJar) :
    ((SerializerLinux.to_bytes jar).drop 12).take 4 =
      u32_to_be_bytes jar.min_length := rfl

theorem linux_extract16 (jar : CookieJar) :
    ((SerializerLinux.to_bytes jar).drop 16).take 4 =
      u32_to_be_bytes jar.flags := rfl

theorem linux_extract20 (jar : CookieJar) :
    (SerializerLinux.to_bytes jar).getD 20 0 = jar.delim.toNat % 256 := rfl

theorem linux_extract24 (jar : CookieJar) :
    (SerializerLinux.to_bytes jar).drop 24 =
      encode_offsets u32_to_be_bytes (2^32) jar.cookies 0 ++
        u32_to_be_bytes jar.file_size := rfl

set_option maxHeartbeats 1000000 in
theorem linux_offsets_decode (jar : CookieJar)
    (hoff : ∀ c ∈ jar.cookies, c.offset ≠ 0 ∧ c.offset < 2^32) :
    decode_table4 u32_from_be_bytes (SerializerLinux.to_bytes jar) 24
        (((SerializerLinux.to_bytes jar).length - 4 - 24 + 3) / 4) =
      jar.cookies.map Cookie.offset := by
  have hBlen := linux_to_bytes_length jar
  have hcount : ((SerializerLinux.to_bytes jar).length - 4 - 24 + 3) / 4 =
      ((jar.cookies.map Cookie.offset).map u32_to_be_bytes).length := by
    simp only [List.length_map]
    omega
  have hchunks_len :
      ∀ ch ∈ (jar.cookies.map Cookie.offset).map u32_to_be_bytes, ch.length = 4 := by
    intro ch hch
    obtain ⟨x, _, rfl⟩ := List.mem_map.mp hch
    rfl
  have hsplit : SerializerLinux.to_bytes jar =
      (SerializerLinux.to_bytes jar).take 24 ++
        (((jar.cookies.map Cookie.offset).map u32_to_be_bytes).flatten ++
          u32_to_be_bytes jar.file_size) := by
    conv_lhs => rw [← List.take_append_drop 24 (SerializerLinux.to_bytes jar)]
    rw [linux_extract24, encode_offsets_eq_flatten,
      emitted_offsets_of_nonzero _ _ _ (fun c hc => (hoff c hc).1)]
  have hpre : (24 : Nat) = ((SerializerLinux.to_bytes jar).take 24).length := by
    rw [List.length_take]
    omega
  rw [hcount,
    show decode_table4 u32_from_be_bytes (SerializerLinux.to_bytes jar) 24
        ((jar.cookies.map Cookie.offset).map u32_to_be_bytes).length =
      decode_table4 u32_from_be_bytes
        ((SerializerLinux.to_bytes jar).take 24 ++
          (((jar.cookies.map Cookie.offset).map u32_to_be_bytes).flatten ++
            u32_to_be_bytes jar.file_size)) 24
        ((jar.cookies.map Cookie.offset).map u32_to_be_bytes).length from by rw [← hsplit],
    decode_table4_spec u32_from_be_bytes _ _ _ _ hchunks_len hpre]
  simp only [List.map_map]
  refine List.map_congr_left ?_
  intro c hc
  simp only [Function.comp_apply, u32_from_be_bytes_to_be]
  exact Nat.mod_eq_of_lt (hoff c hc).2

set_option maxHeartbeats 1000000 in
theorem linux_roundtrip (jar : CookieJar)
    (hmax : jar.max_length < 2^32) (hmin : jar.min_length < 2^32)
    (hflags : jar.flags < 2^32) (hfs : jar.file_size < 2^32)
    (hdelim : jar.delim.toNat < 256) (hcnt : jar.cookies.length < 2^32)
    (hoff : ∀ c ∈ jar.cookies, c.offset ≠ 0 ∧ c.offset < 2^32) :
    ∃ jar', SerializerLinux.from_bytes (SerializerLinux.to_bytes jar) = some jar' ∧
      jar'.cookies.map Cookie.offset = jar.cookies.map Cookie.offset ∧
      jar'.cookies.length = jar.cookies.length ∧
      jar'.flags = jar.flags ∧ jar'.delim = jar.delim ∧
      jar'.max_length = jar.max_length ∧ jar'.min_length = jar.min_length ∧
      jar'.file_size = jar.file_size := by
  have hBlen := linux_to_bytes_length jar
  have hofft := linux_offsets_decode jar hoff
  have hnum : u32_from_be_bytes (((SerializerLinux.to_bytes jar).drop 4).take 4) =
      jar.cookies.length := by
    rw [linux_extract4, u32_from_be_bytes_to_be]
    exact Nat.mod_eq_of_lt hcnt
  unfold SerializerLinux.from_bytes
  simp only [hofft, hnum, List.length_map, if_pos rfl, Option.some.injEq]
  refine ⟨_, rfl, ?_, ?_, ?_, ?_, ?_, ?_, ?_⟩
  · simp only [List.map_map]
    rfl
  · simp only [List.length_map]
  · show u32_from_be_bytes (((SerializerLinux.to_bytes jar).drop 16).take 4) = jar.flags
    rw [linux_extract16, u32_from_be_bytes_to_be]
    exact Nat.mod_eq_of_lt hflags
  · show Char.ofNat ((SerializerLinux.to_bytes jar).getD 20 0) = jar.delim
    rw [linux_extract20, Nat.mod_eq_of_lt hdelim, Char.ofNat_toNat]
  · show u32_from_be_bytes (((SerializerLinux.to_bytes jar).drop 8).take 4) = jar.max_length
    rw [linux_extract8, u32_from_be_bytes_to_be]
    exact Nat.mod_eq_of_lt hmax
  · show u32_from_be_bytes (((SerializerLinux.to_bytes jar).drop 12).take 4) = jar.min_length
    rw [linux_extract12, u32_from_be_bytes_to_be]
    exact Nat.mod_eq_of_lt hmin
  · show u32_from_be_bytes
        (((SerializerLinux.to_bytes jar).drop
            ((SerializerLinux.to_bytes jar).length - 4)).take 4) = jar.file_size
    have h1 : (SerializerLinux.to_bytes jar).length - 4 =
        24 + 4 * jar.cookies.length := by omega
    have h2 : 4 * jar.cookies.length =
        (encode_offsets u32_to_be_bytes (2^32) jar.cookies 0).length + 0 := by
      rw [encode_offsets_length u32_to_be_bytes 4 (2^32) (fun _ => rfl)]
      omega
    rw [h1, ← List.drop_drop, linux_extract24, h2, List.drop_append,
      show ((u32_to_be_bytes jar.file_size).drop 0).take 4 =
        u32_to_be_bytes jar.file_size from rfl,
      u32_from_be_bytes_to_be]
    exact Nat.mod_eq_of_lt hfs

theorem freebsd_to_bytes_length (jar : CookieJar) :
    (SerializerFreeBSD.to_bytes jar).length = 32 + 8 * jar.cookies.length := by
  unfold SerializerFreeBSD.to_bytes
  simp only [List.length_append, u32_to_be_bytes_length, u64_to_be_bytes_length,
    List.length_cons, List.length_nil,
    encode_offsets_length u64_to_be_bytes 8 (2^64) (fun _ => rfl)]
  omega

theorem freebsd_extract4 (jar : CookieJar) :
    ((SerializerFreeBSD.to_bytes jar).drop 4).take 4 =
      u32_to_be_bytes jar.cookies.length := rfl

theorem freebsd_extract8 (jar : CookieJar) :
    ((SerializerFreeBSD.to_bytes jar).drop 8).take 4 =
      u32_to_be_bytes jar.max_length := rfl

theorem freebsd_extract12 (jar : CookieJar) :
    ((SerializerFreeBSD.to_bytes jar).drop 12).take 4 =
      u32_to_be_bytes jar.min_length := rfl

theorem freebsd_extract16 (jar : CookieJar) :
    ((SerializerFreeBSD.to_bytes jar).drop 16).take 4 =
      u32_to_be_bytes jar.flags := rfl

theorem freebsd_extract20 (jar : CookieJar) :
    (SerializerFreeBSD.to_bytes jar).getD 20 0 = jar.delim.toNat % 256 := rfl

theorem freebsd_extract24 (jar : CookieJar) :
    (SerializerFreeBSD.to_bytes jar).drop 24 =
      encode_offsets u64_to_be_bytes (2^64) jar.cookies 0 ++
        u64_to_be_bytes jar.file_size := rfl

set_option maxHeartbeats 1000000 in
theorem freebsd_offsets_decode (jar : CookieJar)
    (hoff : ∀ c ∈ jar.cookies, c.offset ≠ 0 ∧ c.offset < 2^32) :
    decode_table8 u64_from_be_bytes (SerializerFreeBSD.to_bytes jar) 24
        (((SerializerFreeBSD.to_bytes jar).length - 8 - 24 + 7) / 8) =
      jar.cookies.map Cookie.offset := by
  have hBlen := freebsd_to_bytes_length jar
  have hcount : ((SerializerFreeBSD.to_bytes jar).length - 8 - 24 + 7) / 8 =
      ((jar.cookies.map Cookie.offset).map u64_to_be_bytes).length := by
    simp only [List.length_map]
    omega
  have hchunks_len :
      ∀ ch ∈ (jar.cookies.map Cookie.offset).map u64_to_be_bytes, ch.length = 8 := by
    intro ch hch
    obtain ⟨x, _, rfl⟩ := List.mem_map.mp hch
    rfl
  have hsplit : SerializerFreeBSD.to_bytes jar =
      (SerializerFreeBSD.to_bytes jar).take 24 ++
        (((jar.cookies.map Cookie.offset).map u64_to_be_bytes).flatten ++
          u64_to_be_bytes jar.file_size) := by
    conv_lhs => rw [← List.take_append_drop 24 (SerializerFreeBSD.to_bytes jar)]
    rw [freebsd_extract24, encode_offsets_eq_flatten,
      emitted_offsets_of_nonzero _ _ _ (fun c hc => (hoff c hc).1)]
  have hpre : (24 : Nat) = ((SerializerFreeBSD.to_bytes jar).take 24).length := by
    rw [List.length_take]
    omega
  rw [hcount,
    show decode_table8 u64_from_be_bytes (SerializerFreeBSD.to_bytes jar) 24
        ((jar.cookies.map Cookie.offset).map u64_to_be_bytes).length =
      decode_table8 u64_from_be_bytes
        ((SerializerFreeBSD.to_bytes jar).take 24 ++
          (((jar.cookies.map Cookie.offset).map u64_to_be_bytes).flatten ++
            u64_to_be_bytes jar.file_size)) 24
        ((jar.cookies.map Cookie.offset).map u64_to_be_bytes).length from by rw [← hsplit],
    decode_table8_spec u64_from_be_bytes _ _ _ _ hchunks_len hpre]
  simp only [List.map_map]
  refine List.map_congr_left ?_
  intro c hc
  simp only [Function.comp_apply, u64_from_be_bytes_to_be]
  exact Nat.mod_eq_of_lt (lt_trans (hoff c hc).2 (by norm_num))

set_option maxHeartbeats 1000000 in
theorem freebsd_roundtrip (jar : CookieJar)
    (hmax : jar.max_length < 2^32) (hmin : jar.min_length < 2^32)
    (hflags : jar.flags < 2^32) (hfs : jar.file_size < 2^32)
    (hdelim : jar.delim.toNat < 256) (hcnt : jar.cookies.length < 2^32)
    (hoff : ∀ c ∈ jar.cookies, c.offset ≠ 0 ∧ c.offset < 2^32) :
    ∃ jar', SerializerFreeBSD.from_bytes (SerializerFreeBSD.to_bytes jar) = some jar' ∧
      jar'.cookies.map Cookie.offset = jar.cookies.map Cookie.offset ∧
      jar'.cookies.length = jar.cookies.length ∧
      jar'.flags = jar.flags ∧ jar'.delim = jar.delim ∧
      jar'.max_length = jar.max_length ∧ jar'.min_length = jar.min_length ∧
      jar'.file_size = jar.file_size := by
  have hBlen := freebsd_to_bytes_length jar
  have hofft := freebsd_offsets_decode jar hoff
  have hnum : u32_from_be_bytes (((SerializerFreeBSD.to_bytes jar).drop 4).take 4) =
      jar.cookies.length := by
    rw [freebsd_extract4, u32_from_be_bytes_to_be]
    exact Nat.mod_eq_of_lt hcnt
  unfold SerializerFreeBSD.from_bytes
  simp only [hofft, hnum, List.length_map, if_pos rfl, Option.some.injEq]
  refine ⟨_, rfl, ?_, ?_, ?_, ?_, ?_, ?_, ?_⟩
  · simp only [List.map_map]
    rfl
  · simp only [List.length_map]
  · show u32_from_be_bytes (((SerializerFreeBSD.to_bytes jar).drop 16).take 4) = jar.flags
    rw [freebsd_extract16, u32_from_be_bytes_to_be]
    exact Nat.mod_eq_of_lt hflags
  · show Char.ofNat ((SerializerFreeBSD.to_bytes jar).getD 20 0) = jar.delim
    rw [freebsd_extract20, Nat.mod_eq_of_lt hdelim, Char.ofNat_toNat]
  · show u32_from_be_bytes (((SerializerFreeBSD.to_bytes jar).drop 8).take 4) = jar.max_length
    rw [freebsd_extract8, u32_from_be_bytes_to_be]
    exact Nat.mod_eq_of_lt hmax
  · show u32_from_be_bytes (((SerializerFreeBSD.to_bytes jar).drop 12).take 4) = jar.min_length
    rw [freebsd_extract12, u32_from_be_bytes_to_be]
    exact Nat.mod_eq_of_lt hmin
  · show u64_from_be_bytes
        (((SerializerFreeBSD.to_bytes jar).drop
            ((SerializerFreeBSD.to_bytes jar).length - 8)).take 8) = jar.file_size
    have h1 : (SerializerFreeBSD.to_bytes jar).length - 8 =
        24 + 8 * jar.cookies.length := by omega
    have h2 : 8 * jar.cookies.length =
        (encode_offsets u64_to_be_bytes (2^64) jar.cookies 0).length + 0 := by
      rw [encode_offsets_length u64_to_be_bytes 8 (2^64) (fun _ => rfl)]
      omega
    rw [h1, ← List.drop_drop, freebsd_extract24, h2, List.drop_append,
      show ((u64_to_be_bytes jar.file_size).drop 0).take 8 =
        u64_to_be_bytes jar.file_size from rfl,
      u64_from_be_bytes_to_be]
    exact Nat.mod_eq_of_lt (lt_trans hfs (by norm_num))

/-- C1 (amended): for every CookieJar whose max_length, min_length, flags,
file_size, and cookie count fit in 32 bits, whose delimiter is a single
byte, and whose cookies all carry nonzero offsets below 2^32, decoding
the bytes produced by encoding that jar (Serializer::from_bytes composed
with Serializer::to_bytes for the same SerializerType) succeeds for each
of the three platform layouts and yields a jar equal to the original in
its per-cookie offsets, cookie count, flags, delimiter, max_length,
min_length, and file_size (cookie content strings excluded). The
restriction to nonzero offsets is forced by the encoders, which replace a
zero offset with a recomputed running offset. -/
theorem c1_roundtrip_all_platforms (jar : CookieJar)
    (hmax : jar.max_length < 2^32) (hmin : jar.min_length < 2^32)
    (hflags : jar.flags < 2^32) (hfs : jar.file_size < 2^32)
    (hdelim : jar.delim.toNat < 256) (hcnt : jar.cookies.length < 2^32)
    (hoff : ∀ c ∈ jar.cookies, c.offset ≠ 0 ∧ c.offset < 2^32) :
    ∀ t : SerializerType, ∃ jar',
      Serializer.from_bytes (Serializer.to_bytes jar t) t = some jar' ∧
      jar'.cookies.map Cookie.offset = jar.cookies.map Cookie.offset ∧
      jar'.cookies.length = jar.cookies.length ∧
      jar'.flags = jar.flags ∧ jar'.delim = jar.delim ∧
      jar'.max_length = jar.max_length ∧ jar'.min_length = jar.min_length ∧
      jar'.file_size = jar.file_size := by
  intro t
  cases t with
  | Homebrew =>
    obtain ⟨h1, h2, h3, h4, h5, h6, h7⟩ :=
      homebrew_roundtrip jar hmax hmin hflags hfs hdelim hoff
    exact ⟨_, rfl, h1, h2, h3, h4, h5, h6, h7⟩
  | Linux => exact linux_roundtrip jar hmax hmin hflags hfs hdelim hcnt hoff
  | FreeBSD => exact freebsd_roundtrip jar hmax hmin hflags hfs hdelim hcnt hoff

/-- C1 counterexample: a jar whose two cookies both carry offset zero does
not round-trip as the claim states it for every CookieJar: the original
offsets are the zero pair, but decode of encode yields offsets 0 and 5,
because the Homebrew encoder replaces the second zero offset with the
accumulated `len(content) + 3`. -/
theorem c1_zero_offset_counterexample :
    c1_zero_offset_jar.cookies.map Cookie.offset = [0, 0] ∧
    (Serializer.from_bytes (Serializer.to_bytes c1_zero_offset_jar SerializerType.Homebrew)
        SerializerType.Homebrew).map (fun j => j.cookies.map Cookie.offset) = some [0, 5] := by
  decide

/-- C1 witness: the amended round-trip theorem applied to the serializer
unit tests' jar, for each of the three layouts. -/
theorem c1_roundtrip_witness :
    (∃ jar', Serializer.from_bytes (Serializer.to_bytes c1_test_jar SerializerType.Homebrew)
        SerializerType.Homebrew = some jar' ∧
      jar'.cookies.map Cookie.offset = c1_test_jar.cookies.map Cookie.offset ∧
      jar'.cookies.length = c1_test_jar.cookies.length ∧
      jar'.flags = c1_test_jar.flags ∧ jar'.delim = c1_test_jar.delim ∧
      jar'.max_length = c1_test_jar.max_length ∧ jar'.min_length = c1_test_jar.min_length ∧
      jar'.file_size = c1_test_jar.file_size) ∧
    (∃ jar', Serializer.from_bytes (Serializer.to_bytes c1_test_jar SerializerType.Linux)
        SerializerType.Linux = some jar' ∧
      jar'.cookies.map Cookie.offset = c1_test_jar.cookies.map Cookie.offset ∧
      jar'.cookies.length = c1_test_jar.cookies.length ∧
      jar'.flags = c1_test_jar.flags ∧ jar'.delim = c1_test_jar.delim ∧
      jar'.max_length = c1_test_jar.max_length ∧ jar'.min_length = c1_test_jar.min_length ∧
      jar'.file_size = c1_test_jar.file_size) ∧
    (∃ jar', Serializer.from_bytes (Serializer.to_bytes c1_test_jar SerializerType.FreeBSD)
        SerializerType.FreeBSD = some jar' ∧
      jar'.cookies.map Cookie.offset = c1_test_jar.cookies.map Cookie.offset ∧
      jar'.cookies.length = c1_test_jar.cookies.length ∧
      jar'.flags = c1_test_jar.flags ∧ jar'.delim = c1_test_jar.delim ∧
      jar'.max_length = c1_test_jar.max_length ∧ jar'.min_length = c1_test_jar.min_length ∧
      jar'.file_size = c1_test_jar.file_size) :=
  ⟨c1_roundtrip_all_platforms c1_test_jar (by decide) (by decide) (by decide) (by decide)
      (by decide) (by decide) (by decide) SerializerType.Homebrew,
   c1_roundtrip_all_platforms c1_test_jar (by decide) (by decide) (by decide) (by decide)
      (by decide) (by decide) (by decide) SerializerType.Linux,
   c1_roundtrip_all_platforms c1_test_jar (by decide) (by decide) (by decide) (by decide)
      (by decide) (by decide) (by decide) SerializerType.FreeBSD⟩

/-- C2: for every u64 value n, u64_htonl_to_bytes n is an 8-byte field
whose low 4 bytes carry n mod 2^32 in big-endian order, whose high 4
bytes are zero, and u64_ntohl_from_bytes inverts it to n mod 2^32. -/
theorem c2_truncated_encoding (n : Nat) :
    (u64_htonl_to_bytes n).length = 8 ∧
    (u64_htonl_to_bytes n).take 4 = u32_to_be_bytes (n % 2^32) ∧
    (u64_htonl_to_bytes n).drop 4 = [0, 0, 0, 0] ∧
    u64_ntohl_from_bytes (u64_htonl_to_bytes n) = n % 2^32 := by
  refine ⟨rfl, ?_, ?_, u64_ntohl_from_bytes_htonl n⟩
  · rw [u64_htonl_to_bytes_eq, u32_to_be_bytes_mod]
    exact List.take_left' rfl
  · rw [u64_htonl_to_bytes_eq, show (4 : Nat) = (u32_to_be_bytes n).length from rfl]
    exact List.drop_left _ _

/-- C4 counterexample: on the input apple-newline-percent-newline-banana-
newline-percent with delimiter percent, from_text yields 2 cookies with
max_length 7 and min_length 6 as the claim states, but file_size is the
input byte length 16, not the claimed 22. -/
theorem c4_from_text_counterexample :
    (CookieJar.from_text platform_linux c4_input [] '%').cookies.length = 2 ∧
    (CookieJar.from_text platform_linux c4_input [] '%').max_length = 7 ∧
    (CookieJar.from_text platform_linux c4_input [] '%').min_length = 6 ∧
    (CookieJar.from_text platform_linux c4_input [] '%').file_size ≠ 22 := by
  decide

/-- C4 (amended): CookieJar::from_text on the input apple-newline-percent-
newline-banana-newline-percent with delimiter percent produces a jar with
exactly 2 cookies, max_length 7, min_length 6, and file_size 16 (the
input's byte length; the claimed 22 does not match the code, whose own
unit tests equate file_size with the normalized input length). -/
theorem c4_from_text_values :
    (CookieJar.from_text platform_linux c4_input [] '%').cookies.length = 2 ∧
    (CookieJar.from_text platform_linux c4_input [] '%').max_length = 7 ∧
    (CookieJar.from_text platform_linux c4_input [] '%').min_length = 6 ∧
    (CookieJar.from_text platform_linux c4_input [] '%').file_size = 16 := by
  decide

/-- C5 counterexample: on empty input from_text leaves no cookies, yet its
min_length is 0, not the u64::MAX sentinel the claim requires, because
from_text overwrites the default sentinel with `min().unwrap_or(&0)`. -/
theorem c5_empty_min_length_counterexample :
    (CookieJar.from_text platform_linux [] [] '%').cookies = [] ∧
    (CookieJar.from_text platform_linux [] [] '%').min_length = 0 ∧
    (CookieJar.from_text platform_linux [] [] '%').min_length ≠ 2^64 - 1 := by
  decide

/-- C5 (amended): for every platform string, input text, location, and
delimiter, the jar built by CookieJar::from_text has min_length and
max_length 0 when its cookie list is empty (not the u64::MAX sentinel the
claim states), and otherwise its max_length and min_length are the
maximum and minimum over the surviving records of len(content)+1. -/
theorem c5_length_metadata (p content location : List Char) (delim : Char) :
    ((CookieJar.from_text p content location delim).cookies = [] →
      (CookieJar.from_text p content location delim).min_length = 0 ∧
      (CookieJar.from_text p content location delim).max_length = 0) ∧
    ((CookieJar.from_text p content location delim).cookies ≠ [] →
      ((CookieJar.from_text p content location delim).cookies.map
          (fun c => c.content.length + 1)).max?
        = some (CookieJar.from_text p content location delim).max_length ∧
      ((CookieJar.from_text p content location delim).cookies.map
          (fun c => c.content.length + 1)).min?
        = some (CookieJar.from_text p content location delim).min_length) := by
  have hmax : (CookieJar.from_text p content location delim).max_length =
      ((CookieJar.from_text p content location delim).cookies.map
        (fun c => c.content.length + 1)).max?.getD 0 := rfl
  have hmin : (CookieJar.from_text p content location delim).min_length =
      ((CookieJar.from_text p content location delim).cookies.map
        (fun c => c.content.length + 1)).min?.getD 0 := rfl
  constructor
  · intro h
    rw [hmin, hmax, h]
    exact ⟨rfl, rfl⟩
  · intro h
    rw [hmin, hmax]
    cases hc : (CookieJar.from_text p content location delim).cookies with
    | nil => exact absurd hc h
    | cons a t => exact ⟨rfl, rfl⟩

/-- C5 witness: the amended metadata theorem at the two-cookie test input,
whose records have lengths 5 and 6. -/
theorem c5_length_metadata_witness :
    ((CookieJar.from_text platform_linux c4_input [] '%').cookies.map
        (fun c => c.content.length + 1)).max?
      = some (CookieJar.from_text platform_linux c4_input [] '%').max_length ∧
    ((CookieJar.from_text platform_linux c4_input [] '%').cookies.map
        (fun c => c.content.length + 1)).min?
      = some (CookieJar.from_text platform_linux c4_input [] '%').min_length :=
  (c5_length_metadata platform_linux c4_input [] '%').2 (by decide)

/-- C10: CookieJar::filter modifies only the cookies field: every other
field is unchanged, the surviving cookies form a sublist (the relative
order is preserved), and a cookie survives exactly when it was present
and every predicate of the sieve admits its content. In particular the
length metadata is not recomputed after filtering. -/
theorem c10_filter_frame (jar : CookieJar) (sieve : CookieSieve) :
    (jar.filter sieve).location = jar.location ∧
    (jar.filter sieve).probability = jar.probability ∧
    (jar.filter sieve).platform = jar.platform ∧
    (jar.filter sieve).version = jar.version ∧
    (jar.filter sieve).max_length = jar.max_length ∧
    (jar.filter sieve).min_length = jar.min_length ∧
    (jar.filter sieve).flags = jar.flags ∧
    (jar.filter sieve).delim = jar.delim ∧
    (jar.filter sieve).file_size = jar.file_size ∧
    List.Sublist (jar.filter sieve).cookies jar.cookies ∧
    ∀ c, c ∈ (jar.filter sieve).cookies ↔ c ∈ jar.cookies ∧ sieve.filter c.content = true := by
  refine ⟨rfl, rfl, rfl, rfl, rfl, rfl, rfl, rfl, rfl, List.filter_sublist _, ?_⟩
  intro c
  exact List.mem_filter

theorem slice_opt_eq_some (bytes : List Nat) (a b : Nat) (s : List Nat)
    (h : slice_opt bytes a b = some s) :
    a ≤ b ∧ b ≤ bytes.length ∧ s = (bytes.drop a).take (b - a) := by
  unfold slice_opt at h
  split at h
  · next hc =>
    injection h with h'
    exact ⟨hc.1, hc.2, h'.symm⟩
  · exact absurd h (by simp)

theorem slice_opt_of_le (bytes : List Nat) (a b : Nat) (hab : a ≤ b)
    (hb : b ≤ bytes.length) :
    slice_opt bytes a b = some ((bytes.drop a).take (b - a)) := by
  unfold slice_opt
  rw [if_pos ⟨hab, hb⟩]

theorem slice_opt_isSome_iff (bytes : List Nat) (a b : Nat) :
    (slice_opt bytes a b).isSome ↔ (a ≤ b ∧ b ≤ bytes.length) := by
  unfold slice_opt
  split
  · next hc => simp [hc]
  · next hc => simp [hc]

/-- C3 (amended): the detector applies the checks with Homebrew precedence:
any buffer whose bytes 0..8 equal the truncated encoding of version 1 is
classified Homebrew regardless of the other patterns; a buffer not
matching the Homebrew magic whose documented FreeBSD pattern holds is
classified FreeBSD; a buffer whose documented Linux pattern holds is
classified Linux; and the 24-byte all-zero buffer does not panic and
falls back to the default platform's tag. (The original claim that every
non-matching input falls back is refuted by buffers whose probed byte
ranges are out of bounds, which panic instead.) -/
theorem c3_get_type_by_bytes_amended (bytes : List Nat) (cur : SerializerType) :
    (matches_homebrew_magic bytes →
      get_type_by_bytes bytes cur = some SerializerType.Homebrew) ∧
    (¬ matches_homebrew_magic bytes → matches_freebsd_magic bytes →
      get_type_by_bytes bytes cur = some SerializerType.FreeBSD) ∧
    (matches_linux_magic bytes →
      get_type_by_bytes bytes cur = some SerializerType.Linux) ∧
    (bytes = List.replicate 24 0 → get_type_by_bytes bytes cur = some cur) := by
  refine ⟨?_, ?_, ?_, ?_⟩
  · intro h
    unfold matches_homebrew_magic at h
    unfold get_type_by_bytes
    rw [h]
    rfl
  · intro hne hf
    obtain ⟨h04, h24, h32⟩ := hf
    obtain ⟨-, h36len, -⟩ := slice_opt_eq_some _ _ _ _ h32
    have h08 : slice_opt bytes 0 8 = some ((bytes.drop 0).take 8) :=
      slice_opt_of_le _ _ _ (by omega) (by omega)
    have hs08ne : ¬ ((bytes.drop 0).take 8 = [0x00, 0x00, 0x00, 0x01, 0x00, 0x00, 0x00, 0x00]) := by
      intro hcontra
      exact hne (by unfold matches_homebrew_magic; rw [h08, hcontra])
    simp only [List.drop_zero] at h08 hs08ne
    unfold get_type_by_bytes
    rw [h08, h04, h24, h32]
    simp [hs08ne]
  · intro hl
    obtain ⟨h04, ⟨h48s, h48ne⟩, ⟨h2832s, h2832ne⟩, ⟨h3236s, h3236ne⟩⟩ := hl
    have h36len : 36 ≤ bytes.length := ((slice_opt_isSome_iff bytes 32 36).mp h3236s).2
    obtain ⟨-, -, h04v⟩ := slice_opt_eq_some _ _ _ _ h04
    have h08 : slice_opt bytes 0 8 = some ((bytes.drop 0).take 8) :=
      slice_opt_of_le _ _ _ (by omega) (by omega)
    have h48 : slice_opt bytes 4 8 = some ((bytes.drop 4).take 4) :=
      slice_opt_of_le _ _ _ (by omega) (by omega)
    have h2832 : slice_opt bytes 28 32 = some ((bytes.drop 28).take 4) :=
      slice_opt_of_le _ _ _ (by omega) (by omega)
    have h3236 : slice_opt bytes 32 36 = some ((bytes.drop 32).take 4) :=
      slice_opt_of_le _ _ _ (by omega) (by omega)
    have h48v : ¬ ((bytes.drop 4).take 4 = [0x00, 0x00, 0x00, 0x00]) := by
      intro hcontra
      exact h48ne (by rw [h48, hcontra])
    have h2832v : ¬ ((bytes.drop 28).take 4 = [0x00, 0x00, 0x00, 0x00]) := by
      intro hcontra
      exact h2832ne (by rw [h2832, hcontra])
    have h3236v : ¬ ((bytes.drop 32).take 4 = [0x00, 0x00, 0x00, 0x00]) := by
      intro hcontra
      exact h3236ne (by rw [h3236, hcontra])
    have hs08ne : ¬ ((bytes.drop 0).take 8 = [0x00, 0x00, 0x00, 0x01, 0x00, 0x00, 0x00, 0x00]) := by
      intro hcontra
      have h4of8 : (bytes.drop 0).take 4 = [0x00, 0x00, 0x00, 0x01] := by
        have := congrArg (List.take 4) hcontra
        simpa [List.take_take] using this
      have : ([0x00, 0x00, 0x00, 0x02] : List Nat) = [0x00, 0x00, 0x00, 0x01] := by
        rw [h04v]
        exact h4of8
      simp at this
    have h04ne1 : ¬ ((bytes.drop 0).take 4 = [0x00, 0x00, 0x00, 0x01]) := by
      intro hcontra
      have : ([0x00, 0x00, 0x00, 0x02] : List Nat) = [0x00, 0x00, 0x00, 0x01] := by
        rw [h04v]; exact hcontra
      simp at this
    have h04' : slice_opt bytes 0 4 = some ((bytes.drop 0).take 4) := by
      rw [h04, h04v]
    simp only [List.drop_zero, Nat.sub_zero] at h08 h04' h04v hs08ne h04ne1
    unfold get_type_by_bytes get_type_linux_or_default
    rw [h08, h04']
    simp [hs08ne, h04ne1, ← h04v, h48, h2832, h3236, h48v, h2832v, h3236v]
  · intro h
    subst h
    rfl

/-- C3 counterexample: the 30-byte buffer matches none of the three magic
patterns, yet the detector panics (out-of-bounds slice at bytes 32..36)
instead of falling back to the default platform's tag, refuting the
claim's universal fallback. -/
theorem c3_short_input_counterexample :
    ¬ matches_homebrew_magic c3_vec_short ∧
    ¬ matches_freebsd_magic c3_vec_short ∧
    ¬ matches_linux_magic c3_vec_short ∧
    get_type_by_bytes c3_vec_short SerializerType.Linux = none := by
  decide

/-- C3 witness: the amended detection theorem applied to the serializer
unit tests' three byte vectors and to the all-zero 24-byte buffer. -/
theorem c3_get_type_witness :
    get_type_by_bytes c3_vec_homebrew SerializerType.Linux = some SerializerType.Homebrew ∧
    get_type_by_bytes c3_vec_freebsd SerializerType.Linux = some SerializerType.FreeBSD ∧
    get_type_by_bytes c3_vec_linux SerializerType.Homebrew = some SerializerType.Linux ∧
    get_type_by_bytes (List.replicate 24 0) SerializerType.Linux = some SerializerType.Linux :=
  ⟨(c3_get_type_by_bytes_amended c3_vec_homebrew SerializerType.Linux).1 (by decide),
   (c3_get_type_by_bytes_amended c3_vec_freebsd SerializerType.Linux).2.1 (by decide) (by decide),
   (c3_get_type_by_bytes_amended c3_vec_linux SerializerType.Homebrew).2.2.1 (by decide),
   (c3_get_type_by_bytes_amended (List.replicate 24 0) SerializerType.Linux).2.2.2 rfl⟩

theorem sum_map_const_rat {α : Type} (l : List α) (c : ℚ) :
    (l.map (fun _ => c)).sum = (l.length : ℚ) * c := by
  induction l with
  | nil => simp
  | cons a t ih =>
    simp only [List.map_cons, List.sum_cons, ih, List.length_cons]
    push_cast
    ring

theorem sum_map_mul_left_rat {α : Type} (l : List α) (c : ℚ) (f : α → ℚ) :
    (l.map (fun x => c * f x)).sum = c * (l.map f).sum := by
  induction l with
  | nil => simp
  | cons a t ih =>
    simp only [List.map_cons, List.sum_cons, ih]
    ring

theorem sum_map_mul_right_rat {α : Type} (l : List α) (c : ℚ) (f : α → ℚ) :
    (l.map (fun x => f x * c)).sum = (l.map f).sum * c := by
  induction l with
  | nil => simp
  | cons a t ih =>
    simp only [List.map_cons, List.sum_cons, ih]
    ring

theorem sum_map_div_mul_rat (l : List CookieJar) (T p : ℚ) :
    (l.map (fun j => (j.cookies.length : ℚ) / T * p)).sum =
      (l.map (fun j => (j.cookies.length : ℚ))).sum / T * p := by
  induction l with
  | nil => simp
  | cons a t ih =>
    simp only [List.map_cons, List.sum_cons, ih]
    ring

theorem cast_sum_nat {α : Type} (l : List α) (f : α → Nat) :
    (((l.map f).sum : Nat) : ℚ) = (l.map (fun x => (f x : ℚ))).sum := by
  induction l with
  | nil => simp
  | cons a t ih =>
    simp only [List.map_cons, List.sum_cons, Nat.cast_add, ih]

theorem shelf_calc_prob_probability (s : CookieShelf) (es : Bool) :
    (s.calculate_prob es).probability = s.probability := by
  unfold CookieShelf.calculate_prob
  split
  · rfl
  · split <;> rfl

theorem shelf_calc_prob_location (s : CookieShelf) (es : Bool) :
    (s.calculate_prob es).location = s.location := by
  unfold CookieShelf.calculate_prob
  split
  · rfl
  · split <;> rfl

theorem num_of_cookies_ne_zero_cast (s : CookieShelf) (h : s.num_of_cookies ≠ 0) :
    ((s.num_of_cookies : Nat) : ℚ) ≠ 0 :=
  Nat.cast_ne_zero.mpr h

theorem num_of_cookies_cast_eq (s : CookieShelf) :
    ((s.num_of_cookies : Nat) : ℚ) = (s.jars.map (fun j => (j.cookies.length : ℚ))).sum := by
  unfold CookieShelf.num_of_cookies
  rw [cast_sum_nat]

theorem shelf_calc_prob_jars_sum (s : CookieShelf) (es : Bool)
    (hp : s.probability ≠ 0) (hj : s.jars ≠ [])
    (hc : es = false → s.num_of_cookies ≠ 0) :
    (((s.calculate_prob es).jars.map (fun j => j.probability)).sum = s.probability) := by
  have hn : (s.jars.length : ℚ) ≠ 0 := by
    refine Nat.cast_ne_zero.mpr ?_
    intro hz
    exact hj (List.length_eq_zero.mp hz)
  unfold CookieShelf.calculate_prob
  rw [if_neg hp]
  cases es with
  | true =>
    simp only [if_true]
    rw [show (s.jars.map (fun j =>
        ({ j with probability := s.probability / (s.num_of_jars : ℚ) } : CookieJar))).map
          (fun j => j.probability) =
        s.jars.map (fun _ => s.probability / (s.num_of_jars : ℚ)) from by
          rw [List.map_map]
          exact List.map_congr_left (fun j _ => rfl)]
    rw [sum_map_const_rat]
    unfold CookieShelf.num_of_jars
    field_simp
  | false =>
    simp only [if_false, Bool.false_eq_true]
    rw [show (s.jars.map (fun j =>
        ({ j with probability :=
            (j.cookies.length : ℚ) / (s.num_of_cookies : ℚ) * s.probability } : CookieJar))).map
          (fun j => j.probability) =
        s.jars.map (fun j =>
          (j.cookies.length : ℚ) / (s.num_of_cookies : ℚ) * s.probability) from by
          rw [List.map_map]
          exact List.map_congr_left (fun j _ => rfl)]
    rw [sum_map_div_mul_rat, ← num_of_cookies_cast_eq]
    have hT : ((s.num_of_cookies : Nat) : ℚ) ≠ 0 := Nat.cast_ne_zero.mpr (hc rfl)
    field_simp

theorem calc_prob_key (es : Bool) (L : List CookieShelf)
    (hsum : (L.map (fun s => s.probability)).sum = 100)
    (hp : ∀ s ∈ L, s.probability ≠ 0)
    (hj : ∀ s ∈ L, s.jars ≠ [])
    (hc : ∀ s ∈ L, s.num_of_cookies ≠ 0) :
    |((L.map (fun s => CookieShelf.calculate_prob s es)).map
        (fun s => s.probability)).sum - 100| < 1 / 10000 ∧
    ∀ s' ∈ L.map (fun s => CookieShelf.calculate_prob s es),
      |((s'.jars.map (fun j => j.probability)).sum - s'.probability)| < 1 / 10000 := by
  constructor
  · have hpres : (L.map (fun s => CookieShelf.calculate_prob s es)).map
        (fun s => s.probability) = L.map (fun s => s.probability) := by
      rw [List.map_map]
      exact List.map_congr_left (fun s _ => shelf_calc_prob_probability s es)
    rw [hpres, hsum]
    norm_num
  · intro s' hs'
    obtain ⟨s1, hs1, rfl⟩ := List.mem_map.mp hs'
    rw [shelf_calc_prob_jars_sum s1 es (hp s1 hs1) (hj s1 hs1) (fun _ => hc s1 hs1),
      shelf_calc_prob_probability]
    norm_num

theorem num_of_jars_cast_eq (cab : CookieCabinet) :
    ((cab.num_of_jars : Nat) : ℚ) = (cab.shelves.map (fun s => (s.num_of_jars : ℚ))).sum := by
  unfold CookieCabinet.num_of_jars
  rw [cast_sum_nat]

theorem cab_num_of_cookies_cast_eq (cab : CookieCabinet) :
    ((cab.num_of_cookies : Nat) : ℚ) =
      (cab.shelves.map (fun s => (s.num_of_cookies : ℚ))).sum := by
  unfold CookieCabinet.num_of_cookies
  rw [cast_sum_nat]

theorem cab_num_of_jars_pos (cab : CookieCabinet)
    (hne : cab.shelves ≠ []) (hj : ∀ s ∈ cab.shelves, s.jars ≠ []) :
    cab.num_of_jars ≠ 0 := by
  obtain ⟨s0, hs0⟩ := List.exists_mem_of_ne_nil cab.shelves hne
  have h1 : 1 ≤ s0.num_of_jars := by
    unfold CookieShelf.num_of_jars
    have := hj s0 hs0
    cases hcase : s0.jars with
    | nil => exact absurd hcase this
    | cons a t => simp [hcase]
  have hle : s0.num_of_jars ≤ cab.num_of_jars := by
    unfold CookieCabinet.num_of_jars
    exact List.single_le_sum (fun _ _ => Nat.zero_le _) _
      (List.mem_map_of_mem (fun s => s.num_of_jars) hs0)
  omega

theorem cab_num_of_cookies_pos (cab : CookieCabinet)
    (hne : cab.shelves ≠ []) (hc : ∀ s ∈ cab.shelves, s.num_of_cookies ≠ 0) :
    cab.num_of_cookies ≠ 0 := by
  obtain ⟨s0, hs0⟩ := List.exists_mem_of_ne_nil cab.shelves hne
  have h1 : 1 ≤ s0.num_of_cookies := Nat.one_le_iff_ne_zero.mpr (hc s0 hs0)
  have hle : s0.num_of_cookies ≤ cab.num_of_cookies := by
    unfold CookieCabinet.num_of_cookies
    exact List.single_le_sum (fun _ _ => Nat.zero_le _) _
      (List.mem_map_of_mem (fun s => s.num_of_cookies) hs0)
  omega

/-- C6 (amended): for cabinets with at least one shelf, every shelf holding
at least one jar and at least one cookie, and shelf weights either all
zero or summing to 100 with every individual weight nonzero, after
CookieCabinet::calculate_prob the shelves' probabilities sum to 100
within 1e-4 and within each shelf the jars' probabilities sum to the
shelf's probability within 1e-4. (The extra conditions are forced: an
empty cabinet sums to 0, and a zero-weight shelf inside a sum-100
cabinet is skipped by CookieShelf::calculate_prob, leaving stale jar
probabilities.) -/
theorem c6_calculate_prob_normalization (cab : CookieCabinet) (es : Bool)
    (hne : cab.shelves ≠ [])
    (hj : ∀ s ∈ cab.shelves, s.jars ≠ [])
    (hc : ∀ s ∈ cab.shelves, s.num_of_cookies ≠ 0)
    (hw : (∀ s ∈ cab.shelves, s.probability = 0) ∨
          ((cab.shelves.map (fun s => s.probability)).sum = 100 ∧
            ∀ s ∈ cab.shelves, s.probability ≠ 0)) :
    |((cab.calculate_prob es).shelves.map (fun s => s.probability)).sum - 100| < 1 / 10000 ∧
    ∀ s' ∈ (cab.calculate_prob es).shelves,
      |((s'.jars.map (fun j => j.probability)).sum - s'.probability)| < 1 / 10000 := by
  rcases hw with hzero | ⟨hsum100, hnz⟩
  · have htot : (cab.shelves.map (fun s => s.probability)).sum = 0 := by
      apply List.sum_eq_zero
      intro x hx
      obtain ⟨s, hs, rfl⟩ := List.mem_map.mp hx
      exact hzero s hs
    unfold CookieCabinet.calculate_prob
    dsimp only
    rw [if_pos htot]
    cases es with
    | true =>
      have hJ : ((cab.num_of_jars : Nat) : ℚ) ≠ 0 :=
        Nat.cast_ne_zero.mpr (cab_num_of_jars_pos cab hne hj)
      have hL := calc_prob_key true
        (cab.shelves.map (fun s =>
          { s with probability := 100 / (cab.num_of_jars : ℚ) * (s.num_of_jars : ℚ) }))
        ?_ ?_ ?_ ?_
      · exact hL
      · rw [List.map_map,
          show ((fun s => s.probability) ∘ fun s : CookieShelf =>
            ({ s with probability :=
              100 / (cab.num_of_jars : ℚ) * (s.num_of_jars : ℚ) } : CookieShelf)) =
            (fun s : CookieShelf => 100 / (cab.num_of_jars : ℚ) * (s.num_of_jars : ℚ)) from
            funext (fun s => rfl),
          sum_map_mul_left_rat, ← num_of_jars_cast_eq]
        field_simp
      · intro s hs
        obtain ⟨s0, hs0, rfl⟩ := List.mem_map.mp hs
        show 100 / (cab.num_of_jars : ℚ) * (s0.num_of_jars : ℚ) ≠ 0
        have h1 : (s0.num_of_jars : ℚ) ≠ 0 := by
          refine Nat.cast_ne_zero.mpr ?_
          unfold CookieShelf.num_of_jars
          intro hz
          exact hj s0 hs0 (List.length_eq_zero.mp hz)
        exact mul_ne_zero (div_ne_zero (by norm_num) hJ) h1
      · intro s hs
        obtain ⟨s0, hs0, rfl⟩ := List.mem_map.mp hs
        exact hj s0 hs0
      · intro s hs
        obtain ⟨s0, hs0, rfl⟩ := List.mem_map.mp hs
        exact hc s0 hs0
    | false =>
      have hC : ((cab.num_of_cookies : Nat) : ℚ) ≠ 0 :=
        Nat.cast_ne_zero.mpr (cab_num_of_cookies_pos cab hne hc)
      have hL := calc_prob_key false
        (cab.shelves.map (fun s =>
          { s with probability := (s.num_of_cookies : ℚ) * (100 / (cab.num_of_cookies : ℚ)) }))
        ?_ ?_ ?_ ?_
      · exact hL
      · rw [List.map_map,
          show ((fun s => s.probability) ∘ fun s : CookieShelf =>
            ({ s with probability :=
              (s.num_of_cookies : ℚ) * (100 / (cab.num_of_cookies : ℚ)) } : CookieShelf)) =
            (fun s : CookieShelf =>
              (s.num_of_cookies : ℚ) * (100 / (cab.num_of_cookies : ℚ))) from
            funext (fun s => rfl),
          sum_map_mul_right_rat, ← cab_num_of_cookies_cast_eq]
        field_simp
      · intro s hs
        obtain ⟨s0, hs0, rfl⟩ := List.mem_map.mp hs
        show (s0.num_of_cookies : ℚ) * (100 / (cab.num_of_cookies : ℚ)) ≠ 0
        have h1 : (s0.num_of_cookies : ℚ) ≠ 0 := Nat.cast_ne_zero.mpr (hc s0 hs0)
        exact mul_ne_zero h1 (div_ne_zero (by norm_num) hC)
      · intro s hs
        obtain ⟨s0, hs0, rfl⟩ := List.mem_map.mp hs
        exact hj s0 hs0
      · intro s hs
        obtain ⟨s0, hs0, rfl⟩ := List.mem_map.mp hs
        exact hc s0 hs0
  · have htot : (cab.shelves.map (fun s => s.probability)).sum ≠ 0 := by
      rw [hsum100]
      norm_num
    unfold CookieCabinet.calculate_prob
    dsimp only
    rw [if_neg htot]
    exact calc_prob_key es cab.shelves hsum100 hnz hj hc


/-- C6 counterexample: a cabinet whose shelves all hold a jar with a cookie
and whose weights sum to 100 (weights 0 and 100) still violates the
claimed invariant after calculate_prob: the zero-weight shelf is skipped
by CookieShelf::calculate_prob, so its jar keeps a stale probability 5
and the jars' sum differs from the shelf's probability 0 by 5. -/
theorem c6_stale_probability_counterexample :
    (∀ s ∈ c6_stale_cabinet.shelves, s.jars ≠ [] ∧ s.num_of_cookies ≠ 0) ∧
    (c6_stale_cabinet.shelves.map (fun s => s.probability)).sum = 100 ∧
    ¬ (∀ s' ∈ (c6_stale_cabinet.calculate_prob false).shelves,
        |((s'.jars.map (fun j => j.probability)).sum - s'.probability)| < 1 / 10000) := by
  refine ⟨by decide, by norm_num [c6_stale_cabinet], ?_⟩
  intro hall
  have hmem : ({ location := ['a'], probability := 0, jars := [sample_jar 5 1] } : CookieShelf) ∈
      (c6_stale_cabinet.calculate_prob false).shelves := by
    norm_num [c6_stale_cabinet, CookieCabinet.calculate_prob, CookieShelf.calculate_prob]
  have h := hall _ hmem
  norm_num [sample_jar, CookieJar.default] at h

/-- C6 witness: the amended normalization theorem's global part at a
two-shelf all-zero-weight cabinet with proportional distribution. -/
theorem c6_normalization_witness :
    |((c6_witness_cabinet.calculate_prob false).shelves.map
        (fun s => s.probability)).sum - 100| < 1 / 10000 :=
  (c6_calculate_prob_normalization c6_witness_cabinet false (by decide) (by decide)
    (by decide) (Or.inl (by decide))).1

/-- C7 (amended): for every shelf with nonzero probability (a zero-weight
shelf returns unchanged, which refutes the original unconditional claim),
after CookieShelf::calculate_prob each jar's probability equals
shelf.probability / num_jars when equal_size is true, and equals
shelf.probability * (that jar's cookie count) / (the shelf's total cookie
count) when equal_size is false and the shelf holds at least one cookie. -/
theorem c7_shelf_jar_probabilities (s : CookieShelf) (es : Bool)
    (hp : s.probability ≠ 0) (hc : es = false → s.num_of_cookies ≠ 0) :
    (es = true → ∀ j ∈ (s.calculate_prob es).jars,
        j.probability = s.probability / (s.num_of_jars : ℚ)) ∧
    (es = false → ∀ j ∈ (s.calculate_prob es).jars,
        j.probability = s.probability * (j.cookies.length : ℚ) / (s.num_of_cookies : ℚ)) := by
  constructor
  · intro hes j hj
    subst hes
    unfold CookieShelf.calculate_prob at hj
    rw [if_neg hp] at hj
    simp only [if_true] at hj
    obtain ⟨j0, _, rfl⟩ := List.mem_map.mp hj
    rfl
  · intro hes j hj
    subst hes
    unfold CookieShelf.calculate_prob at hj
    rw [if_neg hp] at hj
    simp only [if_false, Bool.false_eq_true] at hj
    obtain ⟨j0, _, rfl⟩ := List.mem_map.mp hj
    show (j0.cookies.length : ℚ) / (s.num_of_cookies : ℚ) * s.probability =
      s.probability * (j0.cookies.length : ℚ) / (s.num_of_cookies : ℚ)
    ring

/-- C7 counterexample: a shelf with probability 0 returns unchanged from
calculate_prob, so a jar with stale probability 7 refutes the claimed
formula shelf.probability / num_jars = 0. -/
theorem c7_stale_shelf_counterexample :
    ¬ (∀ j ∈ (c7_stale_shelf.calculate_prob true).jars,
        j.probability = c7_stale_shelf.probability / (c7_stale_shelf.num_of_jars : ℚ)) := by
  intro hall
  have hmem : sample_jar 7 1 ∈ (c7_stale_shelf.calculate_prob true).jars := by
    norm_num [c7_stale_shelf, CookieShelf.calculate_prob]
  have h := hall _ hmem
  norm_num [c7_stale_shelf, sample_jar, CookieJar.default, CookieShelf.num_of_jars] at h

/-- C7 witness: the amended theorem's proportional part at a shelf of
weight 50 over jars with two and three cookies. -/
theorem c7_shelf_jar_probabilities_witness :
    ((c7_witness_shelf.calculate_prob false).jars.getD 0 CookieJar.default).probability =
      c7_witness_shelf.probability *
        (((c7_witness_shelf.calculate_prob false).jars.getD 0
            CookieJar.default).cookies.length : ℚ) /
        (c7_witness_shelf.num_of_cookies : ℚ) := by
  have hmem : (c7_witness_shelf.calculate_prob false).jars.getD 0 CookieJar.default ∈
      (c7_witness_shelf.calculate_prob false).jars := by
    norm_num [c7_witness_shelf, CookieShelf.calculate_prob, CookieShelf.num_of_cookies,
      sample_jar, CookieJar.default]
  exact (c7_shelf_jar_probabilities c7_witness_shelf false (by decide)
    (fun _ => by decide)).2 rfl _ hmem

theorem build_shelves_nonneg : ∀ (items : List WeightToken) (carried : ℚ),
    ∀ s ∈ build_shelves items carried, 0 ≤ s.probability := by
  intro items
  induction items with
  | nil =>
    intro carried s hs
    simp [build_shelves] at hs
  | cons it rest ih =>
    intro carried s hs
    cases it with
    | prob p => exact ih p s hs
    | loc l =>
      by_cases hcp : carried > 0
      · simp only [build_shelves, if_pos hcp] at hs
        rcases List.mem_cons.mp hs with rfl | hs'
        · exact le_of_lt hcp
        · exact ih 0 s hs'
      · simp only [build_shelves, if_neg hcp] at hs
        rcases List.mem_cons.mp hs with rfl | hs'
        · exact le_refl 0
        · exact ih carried s hs'

theorem shelves_of_nonneg (items : List WeightToken) (e : List Char) :
    ∀ s ∈ CookieCabinet.shelves_of items e, 0 ≤ s.probability := by
  intro s hs
  unfold CookieCabinet.shelves_of at hs
  split at hs
  · rcases List.mem_cons.mp hs with rfl | hs'
    · norm_num
    · simp at hs'
  · exact build_shelves_nonneg items 0 s hs

theorem sum_nonpos_all_zero (l : List ℚ) (h : ∀ x ∈ l, 0 ≤ x) (hs : l.sum ≤ 0) :
    ∀ x ∈ l, x = 0 := by
  induction l with
  | nil => simp
  | cons a t ih =>
    have ha := h a (List.mem_cons_self a t)
    have ht : ∀ x ∈ t, 0 ≤ x := fun x hx => h x (List.mem_cons_of_mem a hx)
    have hts : 0 ≤ t.sum := List.sum_nonneg ht
    rw [List.sum_cons] at hs
    have ha0 : a = 0 := by linarith
    have hts0 : t.sum ≤ 0 := by linarith
    intro x hx
    rcases List.mem_cons.mp hx with rfl | hx'
    · exact ha0
    · exact ih ht hts0 x hx'

theorem sum_pos_iff_not_all_zero (l : List ℚ) (h : ∀ x ∈ l, 0 ≤ x) :
    0 < l.sum ↔ ¬ ∀ x ∈ l, x = 0 := by
  constructor
  · intro hpos hall
    rw [List.sum_eq_zero hall] at hpos
    exact lt_irrefl 0 hpos
  · intro hnall
    rcases lt_or_le 0 l.sum with hp | hn
    · exact hp
    · exact absurd (sum_nonpos_all_zero l h hn) hnall

/-- C8: CookieCabinet::from_string_list returns a configuration error
exactly when the shelf weights resolved from the token list are not all
zero and their sum differs from 100 by more than the 1e-4 tolerance;
in particular the token list with weights 15, 85, 10 percent over three
locations is rejected, while weight sets summing exactly to 100 or
containing no weights at all are accepted (the error condition is an
iff, so acceptance in those cases is part of the statement). -/
theorem c8_partial_weights_rejection :
    (∀ (items : List WeightToken) (embed_location : List Char),
      (CookieCabinet.from_string_list items embed_location = none ↔
        ((¬ ∀ p ∈ (CookieCabinet.shelves_of items embed_location).map
            (fun s => s.probability), p = 0) ∧
          |((CookieCabinet.shelves_of items embed_location).map
              (fun s => s.probability)).sum - 100| > 1 / 10000))) ∧
    CookieCabinet.from_string_list c8_tokens [] = none := by
  constructor
  · intro items e
    have hnn : ∀ p ∈ (CookieCabinet.shelves_of items e).map (fun s => s.probability),
        0 ≤ p := by
      intro p hp
      obtain ⟨s, hs, rfl⟩ := List.mem_map.mp hp
      exact shelves_of_nonneg items e s hs
    unfold CookieCabinet.from_string_list
    dsimp only
    split
    · next hcond =>
      constructor
      · intro _
        exact ⟨(sum_pos_iff_not_all_zero _ hnn).mp hcond.2, hcond.1⟩
      · intro _
        rfl
    · next hcond =>
      constructor
      · intro habs
        exact absurd habs (by simp)
      · intro ⟨h1, h2⟩
        exact absurd ⟨h2, (sum_pos_iff_not_all_zero _ hnn).mpr h1⟩ hcond
  · unfold CookieCabinet.from_string_list
    dsimp only
    rw [if_pos]
    constructor
    · show |((CookieCabinet.shelves_of c8_tokens []).map (fun s => s.probability)).sum - 100|
        > 1 / 10000
      norm_num [CookieCabinet.shelves_of, c8_tokens, build_shelves]
    · show ((CookieCabinet.shelves_of c8_tokens []).map (fun s => s.probability)).sum > 0
      norm_num [CookieCabinet.shelves_of, c8_tokens, build_shelves]

theorem exists_pos_weight (ws : List ℚ) (h : ∀ w ∈ ws, 0 ≤ w) (hs : 0 < ws.sum) :
    ∃ i, i < ws.length ∧ 0 < ws.getD i 0 := by
  induction ws with
  | nil => simp at hs
  | cons a t ih =>
    by_cases hap : 0 < a
    · exact ⟨0, by simp, by simpa using hap⟩
    · have ha : a = 0 := le_antisymm (le_of_not_lt hap) (h a (List.mem_cons_self a t))
      have ht : ∀ w ∈ t, 0 ≤ w := fun w hw => h w (List.mem_cons_of_mem a hw)
      have hts : 0 < t.sum := by
        rw [List.sum_cons, ha, zero_add] at hs
        exact hs
      obtain ⟨i, hi, hpos⟩ := ih ht hts
      exact ⟨i + 1, by simpa using hi, by simpa using hpos⟩

theorem weighted_index_sample_spec (ws : List ℚ) (n : Nat)
    (h1 : ws ≠ []) (h2 : ∀ w ∈ ws, 0 ≤ w) (h3 : 0 < ws.sum) :
    ∃ i, weighted_index_sample ws n = some i ∧ i < ws.length ∧ 0 < ws.getD i 0 := by
  unfold weighted_index_sample
  rw [if_pos ⟨h1, h2, h3⟩]
  dsimp only
  have hposne : (List.range ws.length).filter (fun i => decide (0 < ws.getD i 0)) ≠ [] := by
    obtain ⟨i, hi, hp⟩ := exists_pos_weight ws h2 h3
    intro hnil
    have hmem : i ∈ (List.range ws.length).filter (fun i => decide (0 < ws.getD i 0)) :=
      List.mem_filter.mpr ⟨List.mem_range.mpr hi, by simpa using hp⟩
    rw [hnil] at hmem
    simp at hmem
  have hlen : 0 < ((List.range ws.length).filter (fun i => decide (0 < ws.getD i 0))).length :=
    List.length_pos.mpr hposne
  have hmemidx : ((List.range ws.length).filter (fun i => decide (0 < ws.getD i 0))).getD
      (n % ((List.range ws.length).filter (fun i => decide (0 < ws.getD i 0))).length) 0 ∈
      (List.range ws.length).filter (fun i => decide (0 < ws.getD i 0)) := by
    rw [List.getD_eq_getElem _ _ (Nat.mod_lt n hlen)]
    exact List.getElem_mem _
  have hprops := List.mem_filter.mp hmemidx
  refine ⟨_, rfl, List.mem_range.mp hprops.1, by simpa using hprops.2⟩

/-- C9 (amended): CookieCabinet::choose never panics and always returns
Some cookie when the shelf weight vector is valid for WeightedIndex
(nonempty, nonnegative, positive total) and every positively weighted
shelf has a valid jar weight vector whose positively weighted jars are
all non-empty — the post-normalization states produced by
calculate_prob without equal_size. The original claim is refuted by the
empty cabinet, on which choose panics (WeightedIndex::new unwrap)
instead of returning None. -/
theorem c9_choose_amended (cab : CookieCabinet)
    (hs1 : cab.shelves ≠ [])
    (hs2 : ∀ s ∈ cab.shelves, 0 ≤ s.probability)
    (hs3 : 0 < (cab.shelves.map (fun s => s.probability)).sum)
    (hjars : ∀ s ∈ cab.shelves, 0 < s.probability →
      s.jars ≠ [] ∧ (∀ j ∈ s.jars, 0 ≤ j.probability) ∧
        0 < (s.jars.map (fun j => j.probability)).sum ∧
        ∀ j ∈ s.jars, 0 < j.probability → j.cookies ≠ []) :
    ∀ r1 r2 r3, ∃ c, cab.choose r1 r2 r3 = some (some c) := by
  intro r1 r2 r3
  have hws1 : cab.shelves.map (fun s => s.probability) ≠ [] := by
    simpa using hs1
  have hws2 : ∀ w ∈ cab.shelves.map (fun s => s.probability), 0 ≤ w := by
    intro w hw
    obtain ⟨s, hs, rfl⟩ := List.mem_map.mp hw
    exact hs2 s hs
  obtain ⟨si, hsi_eq, hsi_lt, hsi_pos⟩ := weighted_index_sample_spec _ r1 hws1 hws2 hs3
  have hsi_lt' : si < cab.shelves.length := by simpa using hsi_lt
  have hstep1 : cab.choose r1 r2 r3 =
      (cab.shelves.getD si CookieShelf.default).choose r2 r3 := by
    unfold CookieCabinet.choose
    rw [hsi_eq]
  have hs_mem : cab.shelves.getD si CookieShelf.default ∈ cab.shelves := by
    rw [List.getD_eq_getElem _ _ hsi_lt']
    exact List.getElem_mem _
  have hgetmap : (cab.shelves.map (fun s => s.probability)).getD si 0 =
      (cab.shelves.getD si CookieShelf.default).probability := by
    rw [List.getD_eq_getElem _ _ hsi_lt, List.getD_eq_getElem _ _ hsi_lt']
    simp
  have hs_prob : 0 < (cab.shelves.getD si CookieShelf.default).probability := by
    rw [← hgetmap]
    exact hsi_pos
  obtain ⟨hj1, hj2, hj3, hj4⟩ := hjars _ hs_mem hs_prob
  have hjws1 : (cab.shelves.getD si CookieShelf.default).jars.map
      (fun j => j.probability) ≠ [] := by
    simpa using hj1
  have hjws2 : ∀ w ∈ (cab.shelves.getD si CookieShelf.default).jars.map
      (fun j => j.probability), 0 ≤ w := by
    intro w hw
    obtain ⟨j, hj, rfl⟩ := List.mem_map.mp hw
    exact hj2 j hj
  obtain ⟨ji, hji_eq, hji_lt, hji_pos⟩ := weighted_index_sample_spec _ r2 hjws1 hjws2 hj3
  have hji_lt' : ji < (cab.shelves.getD si CookieShelf.default).jars.length := by
    simpa using hji_lt
  have hstep2 : (cab.shelves.getD si CookieShelf.default).choose r2 r3 =
      some (((cab.shelves.getD si CookieShelf.default).jars.getD ji
        CookieJar.default).choose r3) := by
    unfold CookieShelf.choose
    rw [hji_eq]
  have hj_mem : (cab.shelves.getD si CookieShelf.default).jars.getD ji CookieJar.default ∈
      (cab.shelves.getD si CookieShelf.default).jars := by
    rw [List.getD_eq_getElem _ _ hji_lt']
    exact List.getElem_mem _
  have hjgetmap : ((cab.shelves.getD si CookieShelf.default).jars.map
      (fun j => j.probability)).getD ji 0 =
      ((cab.shelves.getD si CookieShelf.default).jars.getD ji CookieJar.default).probability := by
    rw [List.getD_eq_getElem _ _ hji_lt, List.getD_eq_getElem _ _ hji_lt']
    simp
  have hj_prob : 0 < ((cab.shelves.getD si CookieShelf.default).jars.getD ji
      CookieJar.default).probability := by
    rw [← hjgetmap]
    exact hji_pos
  have hne : ((cab.shelves.getD si CookieShelf.default).jars.getD ji
      CookieJar.default).cookies ≠ [] := hj4 _ hj_mem hj_prob
  have hcklen : 0 < ((cab.shelves.getD si CookieShelf.default).jars.getD ji
      CookieJar.default).cookies.length := List.length_pos.mpr hne
  obtain ⟨ck, hstep3⟩ : ∃ ck, (((cab.shelves.getD si CookieShelf.default).jars.getD ji
      CookieJar.default).choose r3) = some ck := by
    unfold CookieJar.choose
    rw [if_neg (by simpa using hne)]
    exact ⟨_, by rw [List.getElem?_eq_getElem (Nat.mod_lt r3 hcklen)]⟩
  exact ⟨ck, by rw [hstep1, hstep2, hstep3]⟩

/-- C9 counterexample: the empty cabinet holds zero non-empty jars, yet
choose panics (modelled by `none`) rather than returning the claimed
None result (`some none`). -/
theorem c9_empty_cabinet_counterexample :
    c9_empty_cabinet.num_of_nonempty_jars = 0 ∧
    c9_empty_cabinet.choose 0 0 0 = none ∧
    c9_empty_cabinet.choose 0 0 0 ≠ some none := by
  decide

/-- C9 witness: the amended theorem at a consistent one-shelf cabinet,
showing a cookie is returned (no panic, no None). -/
theorem c9_choose_witness :
    (c9_witness_cabinet.choose 1 3 5).isSome = true ∧
    c9_witness_cabinet.choose 1 3 5 ≠ some none := by
  obtain ⟨c, hc⟩ := c9_choose_amended c9_witness_cabinet (by decide)
    (by
      intro s hs
      simp only [c9_witness_cabinet, List.mem_singleton] at hs
      subst hs
      norm_num)
    (by norm_num [c9_witness_cabinet])
    (by
      intro s hs hp
      simp only [c9_witness_cabinet, List.mem_singleton] at hs
      subst hs
      refine ⟨by decide, ?_, ?_, ?_⟩
      · intro j hj
        simp only [sample_jar, CookieJar.default, List.mem_singleton] at hj
        subst hj
        norm_num
      · norm_num [sample_jar, CookieJar.default]
      · intro j hj _
        simp only [sample_jar, CookieJar.default, List.mem_singleton] at hj
        subst hj
        decide)
    1 3 5
  rw [hc]
  exact ⟨rfl, by simp⟩
